import Mathlib

/-!
Verification development for the core of an MLS (Messaging Layer Security)
implementation. The definitions embed the secret tree, sender ratchets,
leaf node signing payloads, key packages, HPKE labeled encryption, the
bounded past-epoch message store, external join proposals and the public
group observer. Pure functions from the implementation are translated
directly; collaborator components that are only specified (tree math,
sender ratchet internals, crypto primitives, the message secrets store)
are modelled from the specification and marked as such. Rust panics
(out-of-bounds indexing, expect) are modelled as a distinct failure value
so that a successful run of an operation never hides a panic.
-/

namespace Mls

/-! ## Array-representation tree math

Modelled from the spec: the ratchet tree and the secret tree are
left-balanced binary trees sized for a power-of-two number of leaves,
with nodes addressed by dense integer indices
(TreeNodeIndex = Leaf(u32) | Parent(u32)); direct path, copath and
resolution are pure functions of indices and tree size. We use the MLS
array representation: tree node index x with leaves at even x and parent
nodes at odd x; the level of a node is the number of trailing one bits
of its index. -/

/-- Dense index of a node of the array-representation binary tree:
either a leaf index or a parent node index. -/
inductive TreeNodeIndex where
  | leaf (i : Nat)
  | parent (j : Nat)
deriving DecidableEq, Repr

/-- Fuel-driven count of trailing one bits (the level of a tree node). -/
def levelAux : Nat → Nat → Nat
  | 0, _ => 0
  | fuel + 1, x => if x % 2 = 1 then levelAux fuel (x / 2) + 1 else 0

/-- Level of a tree node index: the number of trailing one bits. A fuel
of x itself is always sufficient. -/
def level (x : Nat) : Nat := levelAux x x

/-- Tree node index of the left child of the (odd) tree node index x. -/
def leftNode (x : Nat) : Nat := x - 2 ^ (level x - 1)

/-- Tree node index of the right child of the (odd) tree node index x. -/
def rightNode (x : Nat) : Nat := x + 2 ^ (level x - 1)

/-- Split a tree node index into the leaf/parent dense indexing. -/
def nodeToIndex (x : Nat) : TreeNodeIndex :=
  if x % 2 = 0 then .leaf (x / 2) else .parent ((x - 1) / 2)

/-- Left child of a parent node, given by its dense parent index. -/
def left (p : Nat) : TreeNodeIndex := nodeToIndex (leftNode (2 * p + 1))

/-- Right child of a parent node, given by its dense parent index. -/
def right (p : Nat) : TreeNodeIndex := nodeToIndex (rightNode (2 * p + 1))

/-- Tree node index of the root of a tree with the given leaf count. -/
def rootNodeIdx (leaf_count : Nat) : Nat := leaf_count - 1

/-- Root of a tree with the given (power-of-two) leaf count. For a
one-leaf tree the root is the leaf itself. -/
def root (leaf_count : Nat) : TreeNodeIndex := nodeToIndex (rootNodeIdx leaf_count)

/-- Tree node index of the parent of node x. -/
def parentNode (x : Nat) : Nat :=
  let k := level x
  if x / 2 ^ (k + 1) % 2 = 0 then x + 2 ^ k else x - 2 ^ k

/-- Fuel-driven walk from a node up to the root, collecting the chain of
parent tree node indices. -/
def directPathAux : Nat → Nat → Nat → List Nat
  | 0, _, _ => []
  | fuel + 1, x, r =>
    if x = r then []
    else
      let p := parentNode x
      p :: directPathAux fuel p r

/-- Direct path of a leaf: the chain of parent nodes from the parent of
the leaf up to and including the root, as dense parent node indices. -/
def direct_path (i : Nat) (leaf_count : Nat) : List Nat :=
  (directPathAux leaf_count (2 * i) (rootNodeIdx leaf_count)).map (fun x => (x - 1) / 2)

/-! ### Tree math facts used by the secret tree proofs -/

theorem levelAux_fuel (f : Nat) : ∀ g x, x ≤ f → x ≤ g → levelAux f x = levelAux g x := by
  induction f with
  | zero =>
    intro g x hf _
    interval_cases x
    cases g with
    | zero => rfl
    | succ g => simp [levelAux]
  | succ f ih =>
    intro g x hf hg
    cases g with
    | zero =>
      interval_cases x
      simp [levelAux]
    | succ g =>
      simp only [levelAux]
      by_cases hx : x % 2 = 1
      · simp only [hx, if_true]
        have h1 : x / 2 ≤ f := by omega
        have h2 : x / 2 ≤ g := by omega
        rw [ih g (x / 2) h1 h2]
      · simp [hx]

theorem level_odd (x : Nat) (hx : x % 2 = 1) : level x = level (x / 2) + 1 := by
  have hx1 : 1 ≤ x := by omega
  unfold level
  cases x with
  | zero => omega
  | succ m =>
    simp only [levelAux, hx, if_true]
    have : (m + 1) / 2 ≤ m := by omega
    rw [levelAux_fuel m ((m + 1) / 2) ((m + 1) / 2) this (le_refl _)]

theorem level_even (x : Nat) (hx : x % 2 = 0) : level x = 0 := by
  unfold level
  cases x with
  | zero => rfl
  | succ m => simp [levelAux, hx]

theorem two_pow_level_le (x : Nat) (hx : x % 2 = 1) : 2 ^ level x ≤ x + 1 := by
  induction x using Nat.strong_induction_on with
  | _ x ih =>
    rw [level_odd x hx]
    by_cases h2 : x / 2 % 2 = 1
    · have hlt : x / 2 < x := by omega
      have := ih (x / 2) hlt h2
      rw [pow_succ]
      omega
    · have h0 : level (x / 2) = 0 := level_even _ (by omega)
      rw [h0]
      omega

theorem two_pow_level_sub_one_le (x : Nat) (hx : x % 2 = 1) : 2 ^ (level x - 1) ≤ x := by
  have h := two_pow_level_le x hx
  have hl : 1 ≤ level x := by rw [level_odd x hx]; omega
  have : 2 ^ level x = 2 * 2 ^ (level x - 1) := by
    conv_lhs => rw [show level x = (level x - 1) + 1 by omega]
    rw [pow_succ]
    ring
  omega

theorem leftNode_lt (x : Nat) (hx : x % 2 = 1) : leftNode x < x := by
  have h1 : 1 ≤ 2 ^ (level x - 1) := Nat.one_le_two_pow
  have h2 := two_pow_level_sub_one_le x hx
  unfold leftNode
  omega

theorem rightNode_gt (x : Nat) : x < rightNode x := by
  have h1 : 1 ≤ 2 ^ (level x - 1) := Nat.one_le_two_pow
  unfold rightNode
  omega

theorem nodeToIndex_inj (a b : Nat) (h : nodeToIndex a = nodeToIndex b) : a = b := by
  unfold nodeToIndex at h
  by_cases ha : a % 2 = 0 <;> by_cases hb : b % 2 = 0 <;> simp [ha, hb] at h <;> omega

theorem nodeToIndex_odd (p : Nat) : nodeToIndex (2 * p + 1) = .parent p := by
  unfold nodeToIndex
  have h1 : (2 * p + 1) % 2 = 1 := by omega
  simp only [h1]
  norm_num

theorem left_ne_self (p : Nat) : left p ≠ .parent p := by
  intro h
  rw [← nodeToIndex_odd p] at h
  have := nodeToIndex_inj _ _ h
  have := leftNode_lt (2 * p + 1) (by omega)
  omega

theorem right_ne_self (p : Nat) : right p ≠ .parent p := by
  intro h
  rw [← nodeToIndex_odd p] at h
  have := nodeToIndex_inj _ _ h
  have := rightNode_gt (2 * p + 1)
  omega

theorem left_ne_right (p : Nat) : left p ≠ right p := by
  intro h
  have := nodeToIndex_inj _ _ h
  have h1 := leftNode_lt (2 * p + 1) (by omega)
  have h2 := rightNode_gt (2 * p + 1)
  omega

/-! ### List helpers -/

theorem get?_set_self {α : Type} (l : List α) (i : Nat) (v : α) (h : i < l.length) :
    (l.set i v).get? i = some v := by
  induction l generalizing i with
  | nil => simp at h
  | cons a l ih =>
    cases i with
    | zero => rfl
    | succ i =>
      simp only [List.set, List.get?]
      exact ih i (by simpa using h)

theorem get?_set_other {α : Type} (l : List α) (i j : Nat) (v : α) (h : i ≠ j) :
    (l.set i v).get? j = l.get? j := by
  induction l generalizing i j with
  | nil => simp
  | cons a l ih =>
    cases i with
    | zero =>
      cases j with
      | zero => omega
      | succ j => rfl
    | succ i =>
      cases j with
      | zero => rfl
      | succ j =>
        simp only [List.set, List.get?]
        exact ih i j (by omega)

/-! ## Secrets and key derivation

Secrets are symbolic terms: the root encryption secret of a secret tree
is a constructor, and every KDF expansion is recorded as a constructor
application, mirroring kdf_expand_label calls of the implementation. -/

/-- Context bytes handed to kdf_expand_label: either a byte-string
literal of the source (such as "left", "right" or the empty context) or
the big-endian encoding of a u32 generation. -/
inductive KdfContext where
  | str (s : String)
  | beBytes (n : Nat)
deriving DecidableEq, Repr

/-- Symbolic secret value. -/
inductive Secret where
  | encryptionSecret (tag : Nat) : Secret
  | kdfExpandLabel (parent : Secret) (label : String) (context : KdfContext) (length : Nat) : Secret
deriving DecidableEq, Repr

/-- Symbolic kdf_expand_label of the crypto provider. -/
def Secret.kdf_expand_label (s : Secret) (label : String) (context : KdfContext) (length : Nat) : Secret :=
  .kdfExpandLabel s label context length

/-- Ciphersuite parameters used by the secret tree: output lengths of
hash, AEAD key and AEAD nonce. -/
structure Ciphersuite where
  hash_length : Nat
  aead_key_length : Nat
  aead_nonce_length : Nat
deriving DecidableEq, Repr

/-- Secret tree error, translated from SecretTreeError of the source
(the payloads of the codec and crypto variants are elided). -/
inductive SecretTreeError where
  | TooDistantInThePast
  | TooDistantInTheFuture
  | IndexOutOfBounds
  | SecretReuseError
  | RatchetTypeError
  | RatchetTooLong
  | LibraryError
  | CodecError
  | CryptoError
deriving DecidableEq, Repr

/-- Secret type of a sender ratchet: handshake or application. -/
inductive SecretType where
  | HandshakeSecret
  | ApplicationSecret
deriving DecidableEq, Repr

/-- DeriveTreeSecret of the source: kdf_expand_label with the generation
as big-endian context bytes. -/
def derive_tree_secret (secret : Secret) (label : String) (generation : Nat) (length : Nat) : Secret :=
  secret.kdf_expand_label label (.beBytes generation) length

/-- AEAD key and nonce pair returned by the ratchets. -/
structure RatchetKeyMaterial where
  key : Secret
  nonce : Secret
deriving DecidableEq, Repr

/-! ## Sender ratchets

Modelled from the spec: sender_ratchet.rs is not part of the sources at
hand, so the encryption and decryption ratchets are modelled from the
specification of EncryptionRatchet and DecryptionRatchet: the encryption
ratchet holds the current chain secret and its generation, ratchets
forward only, and fails fatally when the generation reaches u32::MAX;
the decryption ratchet keeps an advancing head plus a window of cached
generation-indexed key material bounded by out_of_order_tolerance and
maximum_forward_distance, serves cached generations once and refuses
reuse. -/

/-- Value of u32::MAX, the fatal bound of the ratchet generation. -/
def U32_MAX : Nat := 4294967295

/-- Chain secret of a sender ratchet together with its generation. -/
structure RatchetSecret where
  secret : Secret
  generation : Nat
deriving DecidableEq, Repr

/-- Initial ratchet secret at generation zero. -/
def RatchetSecret.initial_ratchet_secret (secret : Secret) : RatchetSecret :=
  { secret := secret, generation := 0 }

/-- Key and nonce derived from the current chain secret at its
generation. -/
def RatchetSecret.key_material (cs : Ciphersuite) (r : RatchetSecret) : RatchetKeyMaterial :=
  { key := derive_tree_secret r.secret "key" r.generation cs.aead_key_length,
    nonce := derive_tree_secret r.secret "nonce" r.generation cs.aead_nonce_length }

/-- Next chain secret: expand the current one with label "secret". -/
def RatchetSecret.next (cs : Ciphersuite) (r : RatchetSecret) : RatchetSecret :=
  { secret := derive_tree_secret r.secret "secret" r.generation cs.hash_length,
    generation := r.generation + 1 }

/-- Modelled from the spec: ratchet_forward of the encryption ratchet
returns (generation, key, nonce) and advances the chain; a generation of
u32::MAX is a fatal ratchet-too-long error. -/
def RatchetSecret.ratchet_forward (cs : Ciphersuite) (r : RatchetSecret) :
    Except SecretTreeError ((Nat × RatchetKeyMaterial) × RatchetSecret) :=
  if r.generation = U32_MAX then .error .RatchetTooLong
  else .ok ((r.generation, r.key_material cs), r.next cs)

/-- Sender ratchet configuration: out-of-order tolerance and maximum
forward distance. -/
structure SenderRatchetConfiguration where
  out_of_order_tolerance : Nat
  maximum_forward_distance : Nat
deriving DecidableEq, Repr

/-- Modelled from the spec: the decryption ratchet holds the advancing
head and the window of cached key material for the
out_of_order_tolerance most recent past generations, newest first; a
consumed entry is none. -/
structure DecryptionRatchet where
  ratchet_head : RatchetSecret
  past_secrets : List (Option RatchetKeyMaterial)
deriving DecidableEq, Repr

/-- Fresh decryption ratchet at generation zero with an empty cache. -/
def DecryptionRatchet.new (secret : Secret) : DecryptionRatchet :=
  { ratchet_head := RatchetSecret.initial_ratchet_secret secret, past_secrets := [] }

/-- Advance the decryption ratchet head by one generation, caching the
key material of the generation being passed, truncating the cache to the
out-of-order tolerance. -/
def DecryptionRatchet.advanceOnce (cs : Ciphersuite) (oot : Nat) (dr : DecryptionRatchet) :
    DecryptionRatchet :=
  { ratchet_head := dr.ratchet_head.next cs,
    past_secrets := (some (dr.ratchet_head.key_material cs) :: dr.past_secrets).take oot }

/-- Advance the decryption ratchet head by the given number of
generations. -/
def DecryptionRatchet.advanceSteps (cs : Ciphersuite) (oot : Nat) :
    Nat → DecryptionRatchet → DecryptionRatchet
  | 0, dr => dr
  | s + 1, dr => DecryptionRatchet.advanceSteps cs oot s (dr.advanceOnce cs oot)

/-- Modelled from the spec: DecryptionRatchet policy for a target
generation. A generation beyond head + maximum_forward_distance is too
distant in the future; a generation with generation +
out_of_order_tolerance < head is too distant in the past; otherwise the
ratchet moves forward as needed, caching intermediate key material, and
the requested generation is served once; a generation whose cache entry
was already consumed (or is missing) is refused with SecretReuseError. -/
def DecryptionRatchet.secret_for_decryption (cs : Ciphersuite) (dr : DecryptionRatchet)
    (generation : Nat) (configuration : SenderRatchetConfiguration) :
    Except SecretTreeError (RatchetKeyMaterial × DecryptionRatchet) :=
  let head := dr.ratchet_head.generation
  if generation > head + configuration.maximum_forward_distance then
    .error .TooDistantInTheFuture
  else if generation + configuration.out_of_order_tolerance < head then
    .error .TooDistantInThePast
  else if head ≤ generation then
    let dr1 := dr.advanceSteps cs configuration.out_of_order_tolerance (generation - head)
    let km := dr1.ratchet_head.key_material cs
    let dr2 : DecryptionRatchet :=
      { ratchet_head := dr1.ratchet_head.next cs,
        past_secrets := (none :: dr1.past_secrets).take configuration.out_of_order_tolerance }
    .ok (km, dr2)
  else
    match dr.past_secrets.get? (head - 1 - generation) with
    | some (some km) =>
      .ok (km, { dr with past_secrets := dr.past_secrets.set (head - 1 - generation) none })
    | some none => .error .SecretReuseError
    | none => .error .SecretReuseError

/-- Sender ratchet: the encryption variant for the own leaf, the
decryption variant for all other leaves. -/
inductive SenderRatchet where
  | EncryptionRatchet (r : RatchetSecret)
  | DecryptionRatchet (r : DecryptionRatchet)
deriving DecidableEq, Repr

/-! ## The secret tree -/

/-- A node of the secret tree carrying a secret. -/
structure SecretTreeNode where
  secret : Secret
deriving DecidableEq, Repr

/-- The secret tree state: own leaf index, per-leaf and per-parent
optional secrets, the two sender ratchet arrays and the tree size as a
leaf count. -/
structure SecretTree where
  own_index : Nat
  leaf_nodes : List (Option SecretTreeNode)
  parent_nodes : List (Option SecretTreeNode)
  handshake_sender_ratchets : List (Option SenderRatchet)
  application_sender_ratchets : List (Option SenderRatchet)
  size : Nat
deriving DecidableEq, Repr

/-- Failure of a secret tree operation: either a SecretTreeError result
or a Rust panic (out-of-bounds indexing or expect). -/
inductive Failure where
  | st (e : SecretTreeError)
  | panicked
deriving DecidableEq, Repr

/-- Result of a secret tree operation. -/
abbrev TreeResult (α : Type) := Except Failure α

/-- Checked vector write: Rust indexing assignment panics when the index
is out of bounds. -/
def setChecked {α : Type} (l : List (Option α)) (i : Nat) (v : Option α) :
    TreeResult (List (Option α)) :=
  if i < l.length then .ok (l.set i v) else .error .panicked

/-- Checked vector read: Rust indexing panics when the index is out of
bounds. -/
def getChecked {α : Type} (l : List (Option α)) (i : Nat) : TreeResult (Option α) :=
  match l.get? i with
  | some v => .ok v
  | none => .error .panicked

/-- SecretTree::new of the source: all nodes empty except the root,
which consumes the encryption secret; the ratchet arrays start
uninitialized. -/
def SecretTree.new (encryption_secret : Secret) (size : Nat) (own_index : Nat) : SecretTree :=
  let leaf_nodes : List (Option SecretTreeNode) := List.replicate size none
  let parent_nodes : List (Option SecretTreeNode) := List.replicate (size - 1) none
  let (leaf_nodes, parent_nodes) :=
    match root size with
    | .leaf leaf_index => (leaf_nodes.set leaf_index (some ⟨encryption_secret⟩), parent_nodes)
    | .parent parent_index => (leaf_nodes, parent_nodes.set parent_index (some ⟨encryption_secret⟩))
  { own_index := own_index,
    leaf_nodes := leaf_nodes,
    parent_nodes := parent_nodes,
    handshake_sender_ratchets := List.replicate size none,
    application_sender_ratchets := List.replicate size none,
    size := size }

/-- The sender ratchet array selected by a secret type. -/
def SecretTree.sender_ratchets (t : SecretTree) (secret_type : SecretType) :
    List (Option SenderRatchet) :=
  match secret_type with
  | .HandshakeSecret => t.handshake_sender_ratchets
  | .ApplicationSecret => t.application_sender_ratchets

/-- SecretTree::ratchet_opt of the source: optional reference to a
sender ratchet, IndexOutOfBounds when the index misses the array. -/
def SecretTree.ratchet_opt (t : SecretTree) (index : Nat) (secret_type : SecretType) :
    Except SecretTreeError (Option SenderRatchet) :=
  match (t.sender_ratchets secret_type).get? index with
  | some sender_ratchet_option => .ok sender_ratchet_option
  | none => .error .IndexOutOfBounds

/-- SecretTree::ratchet_mut of the source: panics when the ratchet is
missing or uninitialized. -/
def SecretTree.ratchet_get (t : SecretTree) (index : Nat) (secret_type : SecretType) :
    TreeResult SenderRatchet :=
  match (t.sender_ratchets secret_type).get? index with
  | some (some r) => .ok r
  | some none => .error .panicked
  | none => .error .panicked

/-- Store a sender ratchet back into the tree (the in-place mutation
through ratchet_mut of the source). -/
def SecretTree.set_ratchet (t : SecretTree) (index : Nat) (secret_type : SecretType)
    (r : SenderRatchet) : SecretTree :=
  match secret_type with
  | .HandshakeSecret =>
    { t with handshake_sender_ratchets := t.handshake_sender_ratchets.set index (some r) }
  | .ApplicationSecret =>
    { t with application_sender_ratchets := t.application_sender_ratchets.set index (some r) }

/-- Write a secret tree node at a leaf or parent position, with checked
indexing. -/
def SecretTree.set_node (t : SecretTree) (idx : TreeNodeIndex) (v : Option SecretTreeNode) :
    TreeResult SecretTree :=
  match idx with
  | .leaf leaf_index =>
    match setChecked t.leaf_nodes leaf_index v with
    | .error e => .error e
    | .ok l => .ok { t with leaf_nodes := l }
  | .parent parent_index =>
    match setChecked t.parent_nodes parent_index v with
    | .error e => .error e
    | .ok l => .ok { t with parent_nodes := l }

/-- SecretTree::derive_down of the source: derives the secrets of the
two children of a parent node with labels "tree"/"left" and
"tree"/"right" and then blanks the parent node; a missing parent secret
is a LibraryError. -/
def SecretTree.derive_down (cs : Ciphersuite) (t : SecretTree) (index_in_tree : Nat) :
    TreeResult SecretTree :=
  let hash_len := cs.hash_length
  match getChecked t.parent_nodes index_in_tree with
  | .error e => .error e
  | .ok none => .error (.st .LibraryError)
  | .ok (some node) =>
    let left_index := left index_in_tree
    let right_index := right index_in_tree
    let left_secret := node.secret.kdf_expand_label "tree" (.str "left") hash_len
    let right_secret := node.secret.kdf_expand_label "tree" (.str "right") hash_len
    match t.set_node left_index (some ⟨left_secret⟩) with
    | .error e => .error e
    | .ok t1 =>
      match t1.set_node right_index (some ⟨right_secret⟩) with
      | .error e => .error e
      | .ok t2 =>
        match setChecked t2.parent_nodes index_in_tree none with
        | .error e => .error e
        | .ok pn => .ok { t2 with parent_nodes := pn }

/-- Collect the empty parent nodes on a direct path up to and including
the first non-empty one, as in the collection loop of
initialize_sender_ratchets; reading a missing slot panics. -/
def SecretTree.collect_empty (t : SecretTree) : List Nat → TreeResult (List Nat)
  | [] => .ok []
  | p :: rest =>
    match getChecked t.parent_nodes p with
    | .error e => .error e
    | .ok v =>
      if v.isSome then .ok [p]
      else
        match t.collect_empty rest with
        | .error e => .error e
        | .ok tail => .ok (p :: tail)

/-- Run derive_down along a list of parent nodes, top to bottom. -/
def SecretTree.derive_down_all (cs : Ciphersuite) : List Nat → SecretTree → TreeResult SecretTree
  | [], t => .ok t
  | n :: rest, t =>
    match t.derive_down cs n with
    | .error e => .error e
    | .ok t1 => SecretTree.derive_down_all cs rest t1

/-- The derivation phase of initialize_sender_ratchets: when the leaf
has no secret, walk the direct path collecting empty nodes until the
first non-empty one and derive the secrets down to the leaf. -/
def SecretTree.ensure_leaf_secret (cs : Ciphersuite) (t : SecretTree) (index : Nat) :
    TreeResult SecretTree :=
  match getChecked t.leaf_nodes index with
  | .error e => .error e
  | .ok v =>
    if v.isNone then
      match t.collect_empty (direct_path index t.size) with
      | .error e => .error e
      | .ok empty_nodes => SecretTree.derive_down_all cs empty_nodes.reverse t
    else .ok t

/-- SecretTree::initialize_sender_ratchets of the source: bounds check,
early return when both ratchets exist, derivation of the leaf secret,
installation of the encryption ratchets at the own index and the
decryption ratchets elsewhere, and erasure of the leaf secret. -/
def SecretTree.initialize_sender_ratchets (cs : Ciphersuite) (t : SecretTree) (index : Nat) :
    TreeResult SecretTree :=
  if t.size ≤ index then .error (.st .IndexOutOfBounds)
  else
    match t.ratchet_opt index .HandshakeSecret, t.ratchet_opt index .ApplicationSecret with
    | .error _, _ => .error .panicked
    | .ok _, .error _ => .error .panicked
    | .ok h, .ok a =>
      if h.isSome ∧ a.isSome then .ok t
      else
        match t.ensure_leaf_secret cs index with
        | .error e => .error e
        | .ok t1 =>
          match getChecked t1.leaf_nodes index with
          | .error e => .error e
          | .ok none => .error (.st .LibraryError)
          | .ok (some node) =>
            let handshake_ratchet_secret :=
              node.secret.kdf_expand_label "handshake" (.str "") cs.hash_length
            let application_ratchet_secret :=
              node.secret.kdf_expand_label "application" (.str "") cs.hash_length
            let pair : SenderRatchet × SenderRatchet :=
              if index = t.own_index then
                (.EncryptionRatchet (RatchetSecret.initial_ratchet_secret handshake_ratchet_secret),
                 .EncryptionRatchet (RatchetSecret.initial_ratchet_secret application_ratchet_secret))
              else
                (.DecryptionRatchet (DecryptionRatchet.new handshake_ratchet_secret),
                 .DecryptionRatchet (DecryptionRatchet.new application_ratchet_secret))
            match setChecked t1.handshake_sender_ratchets index (some pair.1) with
            | .error e => .error e
            | .ok hs =>
              match setChecked t1.application_sender_ratchets index (some pair.2) with
              | .error e => .error e
              | .ok as1 =>
                match setChecked t1.leaf_nodes index none with
                | .error e => .error e
                | .ok ln =>
                  .ok { t1 with
                        handshake_sender_ratchets := hs,
                        application_sender_ratchets := as1,
                        leaf_nodes := ln }

/-- SecretTree::secret_for_decryption of the source: bounds check, lazy
ratchet initialization, rejection of the encryption ratchet type, and
delegation to the decryption ratchet. -/
def SecretTree.secret_for_decryption (cs : Ciphersuite) (t : SecretTree) (index : Nat)
    (secret_type : SecretType) (generation : Nat)
    (configuration : SenderRatchetConfiguration) :
    TreeResult (RatchetKeyMaterial × SecretTree) :=
  if t.size ≤ index then .error (.st .IndexOutOfBounds)
  else
    match t.ratchet_opt index secret_type with
    | .error e => .error (.st e)
    | .ok opt =>
      match (if opt.isNone then t.initialize_sender_ratchets cs index else .ok t) with
      | .error e => .error e
      | .ok t1 =>
        match t1.ratchet_get index secret_type with
        | .error e => .error e
        | .ok (.EncryptionRatchet _) => .error (.st .RatchetTypeError)
        | .ok (.DecryptionRatchet dec_ratchet) =>
          match dec_ratchet.secret_for_decryption cs generation configuration with
          | .error e => .error (.st e)
          | .ok (km, dr1) => .ok (km, t1.set_ratchet index secret_type (.DecryptionRatchet dr1))

/-- SecretTree::secret_for_encryption of the source: lazy ratchet
initialization (whose failure is a panic through expect), rejection of
the decryption ratchet type, and ratcheting the encryption ratchet
forward. -/
def SecretTree.secret_for_encryption (cs : Ciphersuite) (t : SecretTree) (index : Nat)
    (secret_type : SecretType) :
    TreeResult ((Nat × RatchetKeyMaterial) × SecretTree) :=
  match t.ratchet_opt index secret_type with
  | .error e => .error (.st e)
  | .ok opt =>
    match (if opt.isNone then
             match t.initialize_sender_ratchets cs index with
             | .error _ => .error .panicked
             | .ok t1 => .ok t1
           else (.ok t : TreeResult SecretTree)) with
    | .error e => .error e
    | .ok t1 =>
      match t1.ratchet_get index secret_type with
      | .error e => .error e
      | .ok (.DecryptionRatchet _) => .error (.st .RatchetTypeError)
      | .ok (.EncryptionRatchet enc_ratchet) =>
        match enc_ratchet.ratchet_forward cs with
        | .error e => .error (.st e)
        | .ok (gen_km, r1) => .ok (gen_km, t1.set_ratchet index secret_type (.EncryptionRatchet r1))

/-! ## Secret tree lemmas -/

/-- Read a node of the secret tree at a leaf or parent position. -/
def nodeRead (t : SecretTree) (idx : TreeNodeIndex) : Option (Option SecretTreeNode) :=
  match idx with
  | .leaf leaf_index => t.leaf_nodes.get? leaf_index
  | .parent parent_index => t.parent_nodes.get? parent_index

theorem get?_some_lt {α : Type} {l : List α} {i : Nat} {v : α} (h : l.get? i = some v) :
    i < l.length := by
  by_contra hc
  rw [List.get?_eq_none.mpr (by omega)] at h
  exact Option.noConfusion h


theorem setChecked_ok {α : Type} {l l' : List (Option α)} {i : Nat} {v : Option α}
    (h : setChecked l i v = .ok l') : i < l.length ∧ l' = l.set i v := by
  unfold setChecked at h
  split at h
  all_goals first
    | exact Except.noConfusion h
    | exact ⟨by assumption, by cases h; rfl⟩

theorem getChecked_ok {α : Type} {l : List (Option α)} {i : Nat} {v : Option α}
    (h : getChecked l i = .ok v) : l.get? i = some v := by
  unfold getChecked at h
  split at h
  all_goals first
    | exact Except.noConfusion h
    | (cases h; assumption)

/-- Full characterization of a successful set_node. -/
theorem set_node_ok {t t' : SecretTree} {idx : TreeNodeIndex} {v : Option SecretTreeNode}
    (h : t.set_node idx v = .ok t') :
    (∃ li, idx = .leaf li ∧ li < t.leaf_nodes.length
      ∧ t' = { t with leaf_nodes := t.leaf_nodes.set li v })
    ∨ (∃ pj, idx = .parent pj ∧ pj < t.parent_nodes.length
      ∧ t' = { t with parent_nodes := t.parent_nodes.set pj v }) := by
  cases idx with
  | leaf li =>
    left
    refine ⟨li, rfl, ?_, ?_⟩ <;>
    · simp only [SecretTree.set_node] at h
      cases hsc : setChecked t.leaf_nodes li v with
      | error e => rw [hsc] at h; exact Except.noConfusion h
      | ok l =>
        rw [hsc] at h
        simp only at h
        cases h
        obtain ⟨hb, rfl⟩ := setChecked_ok hsc
        first | exact hb | rfl
  | parent pj =>
    right
    refine ⟨pj, rfl, ?_, ?_⟩ <;>
    · simp only [SecretTree.set_node] at h
      cases hsc : setChecked t.parent_nodes pj v with
      | error e => rw [hsc] at h; exact Except.noConfusion h
      | ok l =>
        rw [hsc] at h
        simp only at h
        cases h
        obtain ⟨hb, rfl⟩ := setChecked_ok hsc
        first | exact hb | rfl

theorem set_node_frame {t t' : SecretTree} {idx : TreeNodeIndex} {v : Option SecretTreeNode}
    (h : t.set_node idx v = .ok t') :
    t'.handshake_sender_ratchets = t.handshake_sender_ratchets
    ∧ t'.application_sender_ratchets = t.application_sender_ratchets
    ∧ t'.own_index = t.own_index ∧ t'.size = t.size
    ∧ t'.leaf_nodes.length = t.leaf_nodes.length
    ∧ t'.parent_nodes.length = t.parent_nodes.length := by
  rcases set_node_ok h with ⟨li, _, _, rfl⟩ | ⟨pj, _, _, rfl⟩ <;> simp

theorem set_node_read_self {t t' : SecretTree} {idx : TreeNodeIndex} {v : Option SecretTreeNode}
    (h : t.set_node idx v = .ok t') : nodeRead t' idx = some v := by
  rcases set_node_ok h with ⟨li, rfl, hb, rfl⟩ | ⟨pj, rfl, hb, rfl⟩ <;>
    simpa [nodeRead] using get?_set_self _ _ _ hb

theorem set_node_read_other {t t' : SecretTree} {idx idx' : TreeNodeIndex}
    {v : Option SecretTreeNode} (h : t.set_node idx v = .ok t') (hne : idx' ≠ idx) :
    nodeRead t' idx' = nodeRead t idx' := by
  rcases set_node_ok h with ⟨li, rfl, hb, rfl⟩ | ⟨pj, rfl, hb, rfl⟩ <;>
    cases idx' <;>
    simp [nodeRead] <;>
    exact List.getElem?_set_ne (by rintro rfl; exact hne rfl)

theorem erase_parent_read_other {t : SecretTree} {n : Nat} {idx' : TreeNodeIndex}
    (hne : idx' ≠ .parent n) :
    nodeRead { t with parent_nodes := t.parent_nodes.set n none } idx' = nodeRead t idx' := by
  cases idx' with
  | leaf li => simp [nodeRead]
  | parent pj =>
    have : n ≠ pj := by
      intro hc
      exact hne (by rw [hc])
    simpa [nodeRead] using get?_set_other _ _ _ _ this

/-- Postcondition of derive_down: on success, both children of the
parent node hold their freshly derived secrets and the parent node
itself is blanked. -/
theorem derive_down_spec (cs : Ciphersuite) (t t' : SecretTree) (n : Nat) (nd : SecretTreeNode)
    (hn : t.parent_nodes.get? n = some (some nd))
    (h : t.derive_down cs n = .ok t') :
    nodeRead t' (left n)
      = some (some ⟨nd.secret.kdf_expand_label "tree" (.str "left") cs.hash_length⟩)
    ∧ nodeRead t' (right n)
      = some (some ⟨nd.secret.kdf_expand_label "tree" (.str "right") cs.hash_length⟩)
    ∧ t'.parent_nodes.get? n = some none := by
  unfold SecretTree.derive_down at h
  simp only [getChecked, hn] at h
  cases hL : t.set_node (left n)
      (some ⟨nd.secret.kdf_expand_label "tree" (.str "left") cs.hash_length⟩) with
  | error e => rw [hL] at h; exact Except.noConfusion h
  | ok t1 =>
    rw [hL] at h
    simp only at h
    cases hR : t1.set_node (right n)
        (some ⟨nd.secret.kdf_expand_label "tree" (.str "right") cs.hash_length⟩) with
    | error e => rw [hR] at h; exact Except.noConfusion h
    | ok t2 =>
      rw [hR] at h
      simp only at h
      cases hP : setChecked t2.parent_nodes n none with
      | error e => rw [hP] at h; exact Except.noConfusion h
      | ok pn =>
        rw [hP] at h
        simp only at h
        cases h
        obtain ⟨hb, rfl⟩ := setChecked_ok hP
        have hl1 := set_node_read_self hL
        have hl2 := set_node_read_other hR (left_ne_right n)
        have hr2 := set_node_read_self hR
        refine ⟨?_, ?_, ?_⟩
        · rw [show ({ t2 with parent_nodes := t2.parent_nodes.set n none } : SecretTree)
            = { t2 with parent_nodes := t2.parent_nodes.set n none } from rfl] at *
          rw [erase_parent_read_other (left_ne_self n), hl2, hl1]
        · rw [erase_parent_read_other (right_ne_self n), hr2]
        · simpa using get?_set_self _ _ _ hb

theorem derive_down_frame {cs : Ciphersuite} {t t' : SecretTree} {n : Nat}
    (h : t.derive_down cs n = .ok t') :
    t'.handshake_sender_ratchets = t.handshake_sender_ratchets
    ∧ t'.application_sender_ratchets = t.application_sender_ratchets
    ∧ t'.own_index = t.own_index ∧ t'.size = t.size
    ∧ t'.leaf_nodes.length = t.leaf_nodes.length
    ∧ t'.parent_nodes.length = t.parent_nodes.length := by
  unfold SecretTree.derive_down at h
  cases hg : getChecked t.parent_nodes n with
  | error e => rw [hg] at h; exact Except.noConfusion h
  | ok v =>
    rw [hg] at h
    cases v with
    | none => exact Except.noConfusion h
    | some nd =>
      simp only at h
      cases hL : t.set_node (left n)
          (some ⟨nd.secret.kdf_expand_label "tree" (.str "left") cs.hash_length⟩) with
      | error e => rw [hL] at h; exact Except.noConfusion h
      | ok t1 =>
        rw [hL] at h
        simp only at h
        cases hR : t1.set_node (right n)
            (some ⟨nd.secret.kdf_expand_label "tree" (.str "right") cs.hash_length⟩) with
        | error e => rw [hR] at h; exact Except.noConfusion h
        | ok t2 =>
          rw [hR] at h
          simp only at h
          cases hP : setChecked t2.parent_nodes n none with
          | error e => rw [hP] at h; exact Except.noConfusion h
          | ok pn =>
            rw [hP] at h
            simp only at h
            cases h
            obtain ⟨hb, rfl⟩ := setChecked_ok hP
            obtain ⟨a1, a2, a3, a4, a5, a6⟩ := set_node_frame hL
            obtain ⟨b1, b2, b3, b4, b5, b6⟩ := set_node_frame hR
            refine ⟨by simpa using by rw [b1, a1], by simpa using by rw [b2, a2],
              by simpa using by rw [b3, a3], by simpa using by rw [b4, a4],
              by simpa using by rw [b5, a5], by simpa using by rw [b6, a6]⟩

theorem derive_down_all_frame {cs : Ciphersuite} {ns : List Nat} {t t' : SecretTree}
    (h : SecretTree.derive_down_all cs ns t = .ok t') :
    t'.handshake_sender_ratchets = t.handshake_sender_ratchets
    ∧ t'.application_sender_ratchets = t.application_sender_ratchets
    ∧ t'.own_index = t.own_index ∧ t'.size = t.size
    ∧ t'.leaf_nodes.length = t.leaf_nodes.length
    ∧ t'.parent_nodes.length = t.parent_nodes.length := by
  induction ns generalizing t with
  | nil =>
    simp only [SecretTree.derive_down_all] at h
    cases h
    exact ⟨rfl, rfl, rfl, rfl, rfl, rfl⟩
  | cons n rest ih =>
    simp only [SecretTree.derive_down_all] at h
    cases hd : t.derive_down cs n with
    | error e => rw [hd] at h; exact Except.noConfusion h
    | ok t1 =>
      rw [hd] at h
      simp only at h
      obtain ⟨a1, a2, a3, a4, a5, a6⟩ := derive_down_frame hd
      obtain ⟨b1, b2, b3, b4, b5, b6⟩ := ih h
      exact ⟨by rw [b1, a1], by rw [b2, a2], by rw [b3, a3], by rw [b4, a4],
        by rw [b5, a5], by rw [b6, a6]⟩

theorem ensure_leaf_secret_frame {cs : Ciphersuite} {t t' : SecretTree} {index : Nat}
    (h : t.ensure_leaf_secret cs index = .ok t') :
    t'.handshake_sender_ratchets = t.handshake_sender_ratchets
    ∧ t'.application_sender_ratchets = t.application_sender_ratchets
    ∧ t'.own_index = t.own_index ∧ t'.size = t.size
    ∧ t'.leaf_nodes.length = t.leaf_nodes.length
    ∧ t'.parent_nodes.length = t.parent_nodes.length := by
  unfold SecretTree.ensure_leaf_secret at h
  cases hg : getChecked t.leaf_nodes index with
  | error e => rw [hg] at h; exact Except.noConfusion h
  | ok v =>
    rw [hg] at h
    simp only at h
    split at h
    · cases hc : t.collect_empty (direct_path index t.size) with
      | error e => rw [hc] at h; exact Except.noConfusion h
      | ok empty_nodes =>
        rw [hc] at h
        simp only at h
        exact derive_down_all_frame h
    · cases h
      exact ⟨rfl, rfl, rfl, rfl, rfl, rfl⟩

/-! ## Ratchet initialization characterization -/

/-- A doubly-wrapped option is a present value. -/
def isSomeSome {α : Type} (o : Option (Option α)) : Bool :=
  match o with
  | some (some _) => true
  | _ => false

/-- The sender ratchet at an index and secret type is initialized. -/
def SecretTree.initializedAt (t : SecretTree) (index : Nat) (stype : SecretType) : Bool :=
  isSomeSome ((t.sender_ratchets stype).get? index)

/-- The variant of the sender ratchet stored at an index: true for the
encryption ratchet, false for the decryption ratchet, none when the slot
is missing or uninitialized. -/
def ratchetVariantAt (l : List (Option SenderRatchet)) (i : Nat) : Option Bool :=
  match l.get? i with
  | some (some (.EncryptionRatchet _)) => some true
  | some (some (.DecryptionRatchet _)) => some false
  | _ => none

theorem isSomeSome_true {α : Type} {o : Option (Option α)} (h : isSomeSome o = true) :
    ∃ r, o = some (some r) := by
  unfold isSomeSome at h
  split at h
  · exact ⟨_, rfl⟩
  · exact Bool.noConfusion h

theorem ratchet_opt_ok {t : SecretTree} {index : Nat} {stype : SecretType}
    {opt : Option SenderRatchet} (h : t.ratchet_opt index stype = .ok opt) :
    (t.sender_ratchets stype).get? index = some opt := by
  unfold SecretTree.ratchet_opt at h
  split at h
  all_goals first
    | exact Except.noConfusion h
    | (cases h; assumption)

theorem variantAt_true {l : List (Option SenderRatchet)} {i : Nat}
    (h : ratchetVariantAt l i = some true) :
    ∃ r, l.get? i = some (some (.EncryptionRatchet r)) := by
  unfold ratchetVariantAt at h
  split at h
  · exact ⟨_, by assumption⟩
  · simp at h
  · exact Option.noConfusion h

theorem variantAt_false {l : List (Option SenderRatchet)} {i : Nat}
    (h : ratchetVariantAt l i = some false) :
    ∃ r, l.get? i = some (some (.DecryptionRatchet r)) := by
  unfold ratchetVariantAt at h
  split at h
  · simp at h
  · exact ⟨_, by assumption⟩
  · exact Option.noConfusion h

/-- Characterization of a successful initialize_sender_ratchets run:
either both ratchets were already initialized and the tree is returned
unchanged, or a fresh ratchet pair is installed at the index, with the
encryption variant exactly at the own index, and the leaf secret is
erased. -/
theorem initialize_sender_ratchets_spec (cs : Ciphersuite) (t t' : SecretTree) (index : Nat)
    (h : t.initialize_sender_ratchets cs index = .ok t') :
    (t.initializedAt index .HandshakeSecret = true
      ∧ t.initializedAt index .ApplicationSecret = true ∧ t' = t)
    ∨ (ratchetVariantAt t'.handshake_sender_ratchets index = some (index == t.own_index)
      ∧ ratchetVariantAt t'.application_sender_ratchets index = some (index == t.own_index)
      ∧ t'.leaf_nodes.get? index = some none
      ∧ t'.own_index = t.own_index ∧ t'.size = t.size) := by
  unfold SecretTree.initialize_sender_ratchets at h
  split at h
  · exact Except.noConfusion h
  · split at h
    · exact Except.noConfusion h
    · exact Except.noConfusion h
    · rename_i h0 a0 heqh heqa
      split at h
      · rename_i hsome
        cases h
        left
        obtain ⟨hh, ha⟩ := hsome
        obtain ⟨rh, hrh⟩ := Option.isSome_iff_exists.mp hh
        obtain ⟨ra, hra⟩ := Option.isSome_iff_exists.mp ha
        subst hrh hra
        refine ⟨?_, ?_, rfl⟩
        · unfold SecretTree.initializedAt
          rw [ratchet_opt_ok heqh]
          rfl
        · unfold SecretTree.initializedAt
          rw [ratchet_opt_ok heqa]
          rfl
      · cases he : t.ensure_leaf_secret cs index with
        | error e => rw [he] at h; exact Except.noConfusion h
        | ok t1 =>
          rw [he] at h
          simp only at h
          cases hg : getChecked t1.leaf_nodes index with
          | error e => rw [hg] at h; exact Except.noConfusion h
          | ok v =>
            rw [hg] at h
            cases v with
            | none => exact Except.noConfusion h
            | some node =>
              try simp only at h
              split at h
              · exact Except.noConfusion h
              · rename_i hs hP1
                split at h
                · exact Except.noConfusion h
                · rename_i as1 hP2
                  split at h
                  · exact Except.noConfusion h
                  · rename_i ln hP3
                    cases h
                    right
                    obtain ⟨hb1, rfl⟩ := setChecked_ok hP1
                    obtain ⟨hb2, rfl⟩ := setChecked_ok hP2
                    obtain ⟨hb3, rfl⟩ := setChecked_ok hP3
                    obtain ⟨f1, f2, f3, f4, f5, f6⟩ := ensure_leaf_secret_frame he
                    refine ⟨?_, ?_, ?_, f3, f4⟩
                    · unfold ratchetVariantAt
                      rw [show (({ t1 with
                            handshake_sender_ratchets := _,
                            application_sender_ratchets := _,
                            leaf_nodes := _ } : SecretTree)).handshake_sender_ratchets
                          = t1.handshake_sender_ratchets.set index _ from rfl]
                      rw [get?_set_self _ _ _ hb1]
                      by_cases hio : index = t.own_index
                      · simp [hio]
                      · simp only [if_neg hio]
                        simp [hio]
                    · unfold ratchetVariantAt
                      rw [show (({ t1 with
                            handshake_sender_ratchets := _,
                            application_sender_ratchets := _,
                            leaf_nodes := _ } : SecretTree)).application_sender_ratchets
                          = t1.application_sender_ratchets.set index _ from rfl]
                      rw [get?_set_self _ _ _ hb2]
                      by_cases hio : index = t.own_index
                      · simp [hio]
                      · simp only [if_neg hio]
                        simp [hio]
                    · rw [show (({ t1 with
                            handshake_sender_ratchets := _,
                            application_sender_ratchets := _,
                            leaf_nodes := _ } : SecretTree)).leaf_nodes
                          = t1.leaf_nodes.set index none from rfl]
                      rw [get?_set_self _ _ _ hb3]

/-! ## Invariants of reachable secret trees -/

/-- Invariant relating ratchets and leaf secrets: a leaf whose sender
ratchet pair has been initialized has consumed and erased its leaf
secret. It holds for freshly constructed trees and is maintained by the
secret tree operations. -/
def SecretTree.RatchetLeafInv (t : SecretTree) : Prop :=
  ∀ i, i < t.handshake_sender_ratchets.length →
    t.initializedAt i .HandshakeSecret = true →
    t.initializedAt i .ApplicationSecret = true →
    t.leaf_nodes.get? i = some none

instance (t : SecretTree) : Decidable t.RatchetLeafInv := by
  unfold SecretTree.RatchetLeafInv
  infer_instance

/-- Variant invariant over one ratchet array: every initialized slot
holds the encryption variant exactly at the own index. -/
def VariantInvOn (own : Nat) (l : List (Option SenderRatchet)) : Prop :=
  ∀ i, i < l.length →
    ratchetVariantAt l i = none ∨ ratchetVariantAt l i = some (i == own)

instance (own : Nat) (l : List (Option SenderRatchet)) : Decidable (VariantInvOn own l) := by
  unfold VariantInvOn
  infer_instance

/-- Variant invariant of a secret tree: initialized ratchets are the
encryption variant exactly at the own index, in both arrays. -/
def SecretTree.VariantInv (t : SecretTree) : Prop :=
  VariantInvOn t.own_index t.handshake_sender_ratchets
  ∧ VariantInvOn t.own_index t.application_sender_ratchets

instance (t : SecretTree) : Decidable t.VariantInv := by
  unfold SecretTree.VariantInv
  infer_instance

theorem SecretTree.VariantInv.on {t : SecretTree} (h : t.VariantInv) (st : SecretType) :
    VariantInvOn t.own_index (t.sender_ratchets st) := by
  cases st
  · exact h.1
  · exact h.2

/-- Boolean success test of a result. -/
def isOkB {e a : Type} : Except e a → Bool
  | .ok _ => true
  | .error _ => false

theorem isOkB_ok {e a : Type} {r : Except e a} (h : isOkB r = true) : ∃ v, r = .ok v := by
  cases r with
  | error x => exact Bool.noConfusion h
  | ok v => exact ⟨v, rfl⟩

/-- Extract the success value of a result, with a default. -/
def okOr {a : Type} {e : Type} (r : Except e a) (d : a) : a :=
  match r with
  | .ok v => v
  | .error _ => d

theorem ratchet_get_of_get? {t : SecretTree} {i : Nat} {st : SecretType} {r : SenderRatchet}
    (h : (t.sender_ratchets st).get? i = some (some r)) : t.ratchet_get i st = .ok r := by
  unfold SecretTree.ratchet_get
  rw [h]

/-- On a tree satisfying the variant invariant, requesting a decryption
secret at the own leaf index fails with RatchetTypeError, provided the
ratchet lookup or its lazy initialization does not fail first. -/
theorem secret_for_decryption_own (cs : Ciphersuite) (t : SecretTree) (st : SecretType)
    (gen : Nat) (cfg : SenderRatchetConfiguration)
    (hvar : t.VariantInv)
    (hown : t.own_index < t.size)
    (hlen : (t.sender_ratchets st).length = t.size)
    (hd : t.initializedAt t.own_index st = true
      ∨ isOkB (t.initialize_sender_ratchets cs t.own_index) = true) :
    t.secret_for_decryption cs t.own_index st gen cfg = .error (.st .RatchetTypeError) := by
  unfold SecretTree.secret_for_decryption
  rw [if_neg (by omega)]
  cases hg : (t.sender_ratchets st).get? t.own_index with
  | none =>
    exfalso
    have := List.get?_eq_none.mp hg
    omega
  | some opt =>
    have hro : t.ratchet_opt t.own_index st = .ok opt := by
      unfold SecretTree.ratchet_opt
      rw [hg]
    rw [hro]
    simp only
    cases opt with
    | some r =>
      rw [if_neg (by simp)]
      simp only
      rcases hvar.on st t.own_index (by omega) with hnone | hsome
      · exfalso
        unfold ratchetVariantAt at hnone
        rw [hg] at hnone
        cases r <;> simp at hnone
      · rw [beq_self_eq_true] at hsome
        obtain ⟨re, hre⟩ := variantAt_true hsome
        rw [hg] at hre
        simp only [Option.some.injEq] at hre
        subst hre
        rw [ratchet_get_of_get? hg]
    | none =>
      have hinitAt : t.initializedAt t.own_index st = false := by
        unfold SecretTree.initializedAt
        rw [hg]
        rfl
      have hok : isOkB (t.initialize_sender_ratchets cs t.own_index) = true := by
        rcases hd with hl | hr
        · rw [hinitAt] at hl
          exact Bool.noConfusion hl
        · exact hr
      obtain ⟨t1, hinit⟩ := isOkB_ok hok
      rw [if_pos (by simp), hinit]
      simp only
      rcases initialize_sender_ratchets_spec cs t t1 _ hinit with ⟨hh, ha, rfl⟩ | ⟨v1, v2, _, _, _⟩
      · exfalso
        cases st
        · rw [hh] at hinitAt
          exact Bool.noConfusion hinitAt
        · rw [ha] at hinitAt
          exact Bool.noConfusion hinitAt
      · have hv : ratchetVariantAt (t1.sender_ratchets st) t.own_index = some true := by
          cases st
          · simpa using v1
          · simpa using v2
        obtain ⟨re, hre⟩ := variantAt_true hv
        rw [ratchet_get_of_get? hre]

/-- On a tree satisfying the variant invariant, requesting an encryption
secret at a leaf index other than the own one fails with
RatchetTypeError, provided the ratchet lookup or its lazy initialization
does not fail first. -/
theorem secret_for_encryption_other (cs : Ciphersuite) (t : SecretTree) (st : SecretType)
    (j : Nat)
    (hvar : t.VariantInv)
    (hj : j < (t.sender_ratchets st).length)
    (hjne : j ≠ t.own_index)
    (he : t.initializedAt j st = true ∨ isOkB (t.initialize_sender_ratchets cs j) = true) :
    t.secret_for_encryption cs j st = .error (.st .RatchetTypeError) := by
  unfold SecretTree.secret_for_encryption
  cases hg : (t.sender_ratchets st).get? j with
  | none =>
    exfalso
    have := List.get?_eq_none.mp hg
    omega
  | some opt =>
    have hro : t.ratchet_opt j st = .ok opt := by
      unfold SecretTree.ratchet_opt
      rw [hg]
    rw [hro]
    simp only
    cases opt with
    | some r =>
      rw [if_neg (by simp)]
      simp only
      rcases hvar.on st j (by omega) with hnone | hsome
      · exfalso
        unfold ratchetVariantAt at hnone
        rw [hg] at hnone
        cases r <;> simp at hnone
      · rw [show (j == t.own_index) = false from beq_eq_false_iff_ne.mpr hjne] at hsome
        obtain ⟨rd, hrd⟩ := variantAt_false hsome
        rw [hg] at hrd
        simp only [Option.some.injEq] at hrd
        subst hrd
        rw [ratchet_get_of_get? hg]
    | none =>
      have hinitAt : t.initializedAt j st = false := by
        unfold SecretTree.initializedAt
        rw [hg]
        rfl
      have hok : isOkB (t.initialize_sender_ratchets cs j) = true := by
        rcases he with hl | hr
        · rw [hinitAt] at hl
          exact Bool.noConfusion hl
        · exact hr
      obtain ⟨t1, hinit⟩ := isOkB_ok hok
      rw [if_pos (by simp), hinit]
      simp only
      rcases initialize_sender_ratchets_spec cs t t1 _ hinit with ⟨hh, ha, rfl⟩ | ⟨v1, v2, _, _, _⟩
      · exfalso
        cases st
        · rw [hh] at hinitAt
          exact Bool.noConfusion hinitAt
        · rw [ha] at hinitAt
          exact Bool.noConfusion hinitAt
      · have hv : ratchetVariantAt (t1.sender_ratchets st) j = some false := by
          rw [show (false : Bool) = (j == t.own_index) from (beq_eq_false_iff_ne.mpr hjne).symm]
          cases st
          · simpa using v1
          · simpa using v2
        obtain ⟨rd, hrd⟩ := variantAt_false hv
        rw [ratchet_get_of_get? hrd]

deriving instance DecidableEq for Except

/-! ## Claim theorems: secret tree -/

/-- C1: on every secret tree, whenever derive_down succeeds on a parent
node, afterwards both children of that node hold their derived secrets
and the node itself holds none; and whenever initialize_sender_ratchets
succeeds on a leaf index of a tree satisfying the ratchet-leaf
invariant of reachable states, afterwards the stored leaf secret at
that index is erased, so no consumed interior or leaf secret remains
recoverable from the tree. -/
theorem C1_forward_secrecy_erasure
    (cs : Ciphersuite) (t t' : SecretTree) (n : Nat) (nd : SecretTreeNode)
    (hn : t.parent_nodes.get? n = some (some nd))
    (hd : t.derive_down cs n = .ok t')
    (u u' : SecretTree) (i : Nat)
    (hinv : u.RatchetLeafInv)
    (hi : u.initialize_sender_ratchets cs i = .ok u') :
    nodeRead t' (left n)
      = some (some ⟨nd.secret.kdf_expand_label "tree" (.str "left") cs.hash_length⟩)
    ∧ nodeRead t' (right n)
      = some (some ⟨nd.secret.kdf_expand_label "tree" (.str "right") cs.hash_length⟩)
    ∧ t'.parent_nodes.get? n = some none
    ∧ u'.leaf_nodes.get? i = some none := by
  obtain ⟨h1, h2, h3⟩ := derive_down_spec cs t t' n nd hn hd
  refine ⟨h1, h2, h3, ?_⟩
  rcases initialize_sender_ratchets_spec cs u u' i hi with ⟨hh, ha, heq⟩ | ⟨_, _, hleaf, _, _⟩
  · rw [heq]
    have hh' : isSomeSome ((SecretTree.sender_ratchets u .HandshakeSecret).get? i) = true := hh
    obtain ⟨r, hr⟩ := isSomeSome_true hh'
    have hlt : i < u.handshake_sender_ratchets.length := get?_some_lt hr
    exact hinv i hlt hh ha
  · exact hleaf

/-- Ciphersuite used by the concrete witnesses. -/
def wcs : Ciphersuite := { hash_length := 4, aead_key_length := 4, aead_nonce_length := 4 }

/-- Fresh two-leaf secret tree with own index zero, used by the
concrete witnesses. -/
def wtree : SecretTree := SecretTree.new (.encryptionSecret 0) 2 0

/-- Result of derive_down on the root of the witness tree. -/
def wtree_dd : SecretTree := okOr (SecretTree.derive_down wcs wtree 0) wtree

/-- Result of initializing the sender ratchets of leaf 0 of the witness
tree. -/
def wtree_init : SecretTree := okOr (SecretTree.initialize_sender_ratchets wcs wtree 0) wtree

/-- Result of initializing the sender ratchets of leaf 1 of the witness
tree. -/
def wtree_init1 : SecretTree := okOr (SecretTree.initialize_sender_ratchets wcs wtree 1) wtree

theorem C1_forward_secrecy_erasure_witness :
    SecretTree.derive_down wcs wtree 0 = .ok wtree_dd
    ∧ SecretTree.initialize_sender_ratchets wcs wtree 0 = .ok wtree_init
    ∧ (nodeRead wtree_dd (left 0)
        = some (some ⟨Secret.kdf_expand_label (.encryptionSecret 0) "tree" (.str "left") wcs.hash_length⟩)
      ∧ nodeRead wtree_dd (right 0)
        = some (some ⟨Secret.kdf_expand_label (.encryptionSecret 0) "tree" (.str "right") wcs.hash_length⟩)
      ∧ wtree_dd.parent_nodes.get? 0 = some none
      ∧ wtree_init.leaf_nodes.get? 0 = some none) :=
  ⟨by decide, by decide,
    C1_forward_secrecy_erasure wcs wtree wtree_dd 0 ⟨.encryptionSecret 0⟩ (by decide) (by decide)
      wtree wtree_init 0 (by decide) (by decide)⟩

/-- C7: when initialize_sender_ratchets actually installs a ratchet
pair (the slots were not both initialized already), the installed
sender ratchet is the encryption variant, in both the handshake and the
application slot, exactly when the index equals the own index, and the
decryption variant at every other index. -/
theorem C7_ratchet_variant_choice
    (cs : Ciphersuite) (t t' : SecretTree) (index : Nat)
    (hni : ¬(t.initializedAt index .HandshakeSecret = true
      ∧ t.initializedAt index .ApplicationSecret = true))
    (hi : t.initialize_sender_ratchets cs index = .ok t') :
    ratchetVariantAt t'.handshake_sender_ratchets index = some (index == t.own_index)
    ∧ ratchetVariantAt t'.application_sender_ratchets index = some (index == t.own_index) := by
  rcases initialize_sender_ratchets_spec cs t t' index hi with ⟨hh, ha, _⟩ | ⟨h1, h2, _, _, _⟩
  · exact absurd ⟨hh, ha⟩ hni
  · exact ⟨h1, h2⟩

theorem C7_ratchet_variant_choice_witness :
    (ratchetVariantAt wtree_init.handshake_sender_ratchets 0 = some (0 == wtree.own_index)
      ∧ ratchetVariantAt wtree_init.application_sender_ratchets 0 = some (0 == wtree.own_index))
    ∧ (ratchetVariantAt wtree_init1.handshake_sender_ratchets 1 = some (1 == wtree.own_index)
      ∧ ratchetVariantAt wtree_init1.application_sender_ratchets 1 = some (1 == wtree.own_index)) :=
  ⟨C7_ratchet_variant_choice wcs wtree wtree_init 0 (by decide) (by decide),
    C7_ratchet_variant_choice wcs wtree wtree_init1 1 (by decide) (by decide)⟩

/-- C9: on a tree satisfying the variant invariant of reachable states,
with in-bounds indices, requesting a decryption secret at the own leaf
index fails with RatchetTypeError, and requesting an encryption secret
at any other leaf index fails with RatchetTypeError; neither call
returns key material. -/
theorem C9_ratchet_type_error
    (cs : Ciphersuite) (t : SecretTree) (st : SecretType) (gen : Nat)
    (cfg : SenderRatchetConfiguration) (j : Nat)
    (hvar : t.VariantInv)
    (hown : t.own_index < t.size)
    (hlh : t.handshake_sender_ratchets.length = t.size)
    (hla : t.application_sender_ratchets.length = t.size)
    (hj : j < t.size) (hjne : j ≠ t.own_index)
    (hd : t.initializedAt t.own_index st = true
      ∨ isOkB (t.initialize_sender_ratchets cs t.own_index) = true)
    (he : t.initializedAt j st = true ∨ isOkB (t.initialize_sender_ratchets cs j) = true) :
    t.secret_for_decryption cs t.own_index st gen cfg = .error (.st .RatchetTypeError)
    ∧ t.secret_for_encryption cs j st = .error (.st .RatchetTypeError) := by
  have hlen : (t.sender_ratchets st).length = t.size := by
    cases st
    · exact hlh
    · exact hla
  exact ⟨secret_for_decryption_own cs t st gen cfg hvar hown hlen hd,
    secret_for_encryption_other cs t st j hvar (by omega) hjne he⟩

theorem C9_ratchet_type_error_witness :
    SecretTree.secret_for_decryption wcs wtree wtree.own_index .ApplicationSecret 0 ⟨5, 100⟩
      = .error (.st .RatchetTypeError)
    ∧ SecretTree.secret_for_encryption wcs wtree 1 .ApplicationSecret
      = .error (.st .RatchetTypeError) :=
  C9_ratchet_type_error wcs wtree .ApplicationSecret 0 ⟨5, 100⟩ 1 (by decide) (by decide)
    (by decide) (by decide) (by decide) (by decide) (Or.inr (by decide)) (Or.inr (by decide))

/-! ## Claim C3: the decryption window policy -/

/-- The requested generation is still obtainable from the ratchet: it
is at or beyond the head, or its cache entry has not been consumed. -/
def DecryptionRatchet.freshAt (dr : DecryptionRatchet) (g : Nat) : Bool :=
  if dr.ratchet_head.generation ≤ g then true
  else
    match dr.past_secrets.get? (dr.ratchet_head.generation - 1 - g) with
    | some (some _) => true
    | _ => false

theorem dr_future (cs : Ciphersuite) (dr : DecryptionRatchet) (g : Nat)
    (cfg : SenderRatchetConfiguration)
    (h : dr.ratchet_head.generation + cfg.maximum_forward_distance < g) :
    dr.secret_for_decryption cs g cfg = .error .TooDistantInTheFuture := by
  unfold DecryptionRatchet.secret_for_decryption
  rw [if_pos (by omega)]

theorem dr_past (cs : Ciphersuite) (dr : DecryptionRatchet) (g : Nat)
    (cfg : SenderRatchetConfiguration)
    (h : g + cfg.out_of_order_tolerance < dr.ratchet_head.generation) :
    dr.secret_for_decryption cs g cfg = .error .TooDistantInThePast := by
  unfold DecryptionRatchet.secret_for_decryption
  rw [if_neg (by omega), if_pos (by omega)]

theorem dr_ok (cs : Ciphersuite) (dr : DecryptionRatchet) (g : Nat)
    (cfg : SenderRatchetConfiguration)
    (h1 : g ≤ dr.ratchet_head.generation + cfg.maximum_forward_distance)
    (h2 : dr.ratchet_head.generation ≤ g + cfg.out_of_order_tolerance)
    (h3 : dr.freshAt g = true) :
    ∃ km dr1, dr.secret_for_decryption cs g cfg = .ok (km, dr1) := by
  unfold DecryptionRatchet.secret_for_decryption
  rw [if_neg (by omega), if_neg (by omega)]
  by_cases hf : dr.ratchet_head.generation ≤ g
  · rw [if_pos hf]
    exact ⟨_, _, rfl⟩
  · rw [if_neg hf]
    unfold DecryptionRatchet.freshAt at h3
    rw [if_neg hf] at h3
    split at h3
    · rename_i km hkm
      rw [hkm]
      exact ⟨_, _, rfl⟩
    · exact Bool.noConfusion h3

/-- The secret tree request delegates to the stored decryption ratchet
when the slot already holds one. -/
theorem secret_for_decryption_delegate (cs : Ciphersuite) (t : SecretTree) (i : Nat)
    (st : SecretType) (g : Nat) (cfg : SenderRatchetConfiguration) (dr : DecryptionRatchet)
    (hi : i < t.size)
    (hrat : (t.sender_ratchets st).get? i = some (some (.DecryptionRatchet dr))) :
    t.secret_for_decryption cs i st g cfg
      = match dr.secret_for_decryption cs g cfg with
        | .error e => .error (.st e)
        | .ok p => .ok (p.1, t.set_ratchet i st (.DecryptionRatchet p.2)) := by
  unfold SecretTree.secret_for_decryption
  rw [if_neg (by omega)]
  have hro : t.ratchet_opt i st = .ok (some (.DecryptionRatchet dr)) := by
    unfold SecretTree.ratchet_opt
    rw [hrat]
  rw [hro]
  simp only
  rw [if_neg (by simp)]
  simp only
  rw [ratchet_get_of_get? hrat]
  simp only
  cases hres : dr.secret_for_decryption cs g cfg with
  | error e => rfl
  | ok p =>
    cases p with
    | mk km dr1 => rfl

/-- C3 (amended): a request through SecretTree::secret_for_decryption
on a stored decryption ratchet with head generation head fails with
TooDistantInTheFuture when the generation exceeds head +
maximum_forward_distance, fails with TooDistantInThePast when
generation + out_of_order_tolerance < head, and otherwise, provided the
requested generation has not already been consumed, ratchets forward as
needed and returns key material for the generation (a consumed
generation is refused with SecretReuseError instead). -/
theorem C3_decryption_window
    (cs : Ciphersuite) (t : SecretTree) (i : Nat) (st : SecretType)
    (g : Nat) (cfg : SenderRatchetConfiguration) (dr : DecryptionRatchet)
    (hi : i < t.size)
    (hrat : (t.sender_ratchets st).get? i = some (some (.DecryptionRatchet dr))) :
    (dr.ratchet_head.generation + cfg.maximum_forward_distance < g →
      t.secret_for_decryption cs i st g cfg = .error (.st .TooDistantInTheFuture))
    ∧ (g + cfg.out_of_order_tolerance < dr.ratchet_head.generation →
      t.secret_for_decryption cs i st g cfg = .error (.st .TooDistantInThePast))
    ∧ (g ≤ dr.ratchet_head.generation + cfg.maximum_forward_distance →
      dr.ratchet_head.generation ≤ g + cfg.out_of_order_tolerance →
      dr.freshAt g = true →
      ∃ km t', t.secret_for_decryption cs i st g cfg = .ok (km, t')) := by
  have hdel := secret_for_decryption_delegate cs t i st g cfg dr hi hrat
  refine ⟨?_, ?_, ?_⟩
  · intro h
    rw [hdel, dr_future cs dr g cfg h]
  · intro h
    rw [hdel, dr_past cs dr g cfg h]
  · intro h1 h2 h3
    obtain ⟨km, dr1, hok⟩ := dr_ok cs dr g cfg h1 h2 h3
    exact ⟨km, t.set_ratchet i st (.DecryptionRatchet dr1), by rw [hdel, hok]⟩

/-- Configuration used by the C3 counterexample and witness. -/
def c3cfg : SenderRatchetConfiguration :=
  { out_of_order_tolerance := 1, maximum_forward_distance := 100 }

/-- A decryption ratchet whose generation 0 has already been consumed:
head at generation 1, sole cache entry erased. -/
def c3dr : DecryptionRatchet :=
  { ratchet_head := { secret := .encryptionSecret 7, generation := 1 }, past_secrets := [none] }

/-- Two-leaf secret tree holding the consumed ratchet at leaf 1. -/
def c3tree : SecretTree :=
  { own_index := 0, leaf_nodes := [none, none], parent_nodes := [none],
    handshake_sender_ratchets := [none, some (.DecryptionRatchet c3dr)],
    application_sender_ratchets := [none, some (.DecryptionRatchet c3dr)],
    size := 2 }

theorem C3_counterexample_consumed :
    (0 : Nat) ≤ c3dr.ratchet_head.generation + c3cfg.maximum_forward_distance
    ∧ c3dr.ratchet_head.generation ≤ 0 + c3cfg.out_of_order_tolerance
    ∧ SecretTree.secret_for_decryption wcs c3tree 1 .ApplicationSecret 0 c3cfg
      = .error (.st .SecretReuseError)
    ∧ ∀ km t', SecretTree.secret_for_decryption wcs c3tree 1 .ApplicationSecret 0 c3cfg
      ≠ .ok (km, t') := by
  refine ⟨by decide, by decide, by decide, ?_⟩
  intro km t' hc
  rw [show SecretTree.secret_for_decryption wcs c3tree 1 .ApplicationSecret 0 c3cfg
      = .error (.st .SecretReuseError) from by decide] at hc
  exact Except.noConfusion hc

/-- Fresh decryption ratchet at generation 0. -/
def c3fdr : DecryptionRatchet := DecryptionRatchet.new (.encryptionSecret 8)

/-- Two-leaf secret tree holding the fresh ratchet at leaf 1. -/
def c3ftree : SecretTree :=
  { own_index := 0, leaf_nodes := [none, none], parent_nodes := [none],
    handshake_sender_ratchets := [none, some (.DecryptionRatchet c3fdr)],
    application_sender_ratchets := [none, some (.DecryptionRatchet c3fdr)],
    size := 2 }

theorem C3_decryption_window_witness :
    (c3fdr.ratchet_head.generation + c3cfg.maximum_forward_distance < 2 →
      SecretTree.secret_for_decryption wcs c3ftree 1 .ApplicationSecret 2 c3cfg
        = .error (.st .TooDistantInTheFuture))
    ∧ (2 + c3cfg.out_of_order_tolerance < c3fdr.ratchet_head.generation →
      SecretTree.secret_for_decryption wcs c3ftree 1 .ApplicationSecret 2 c3cfg
        = .error (.st .TooDistantInThePast))
    ∧ (2 ≤ c3fdr.ratchet_head.generation + c3cfg.maximum_forward_distance →
      c3fdr.ratchet_head.generation ≤ 2 + c3cfg.out_of_order_tolerance →
      c3fdr.freshAt 2 = true →
      ∃ km t', SecretTree.secret_for_decryption wcs c3ftree 1 .ApplicationSecret 2 c3cfg
        = .ok (km, t')) :=
  C3_decryption_window wcs c3ftree 1 .ApplicationSecret 2 c3cfg c3fdr (by decide) (by decide)

/-! ## Claim C2: HPKE labeled encryption

Modelled from the spec: the hpke module of the ciphersuite is not part
of the sources at hand, so labeled HPKE is modelled symbolically in the
Dolev-Yao style: sealing records the public key, the "MLS 1.0"-prefixed
labeled context and the plaintext; opening succeeds exactly on an
honestly sealed ciphertext under the matching key pair, label and
context; a corrupted byte string (a bit flip of an honest one) is never
a valid KEM output or sealed ciphertext, reflecting KEM and AEAD
integrity. -/

/-- Crypto provider error (payloads elided). -/
inductive CryptoError where
  | HpkeDecryptionError
  | CryptoLibraryError
deriving DecidableEq, Repr

/-- Symbolic byte strings occurring in HPKE ciphertexts. -/
inductive HpkeBytes where
  | kemOutput (pk : Nat)
  | sealed (pk : Nat) (info_label : String) (info_context : List Nat) (pt : List Nat)
  | corrupted (pos : Nat) (orig : HpkeBytes)
deriving DecidableEq, Repr

/-- Corrupt a symbolic byte string, such as by flipping the bit at a
position; the result is outside the image of honest sealing. -/
def flip_bit (pos : Nat) (b : HpkeBytes) : HpkeBytes := .corrupted pos b

/-- HPKE ciphertext: KEM output and AEAD ciphertext. -/
structure HpkeCiphertext where
  kem_output : HpkeBytes
  ciphertext : HpkeBytes
deriving DecidableEq, Repr

/-- Public key of an HPKE key pair, determined by the secret key. -/
def hpke_public_key (sk : Nat) : Nat := sk + 1

/-- Modelled from the spec: encrypt_with_label seals under the context
string "MLS 1.0 " concatenated with the label, together with the
caller-supplied context bytes. -/
def encrypt_with_label (pk : Nat) (label : String) (context : List Nat) (plaintext : List Nat) :
    HpkeCiphertext :=
  { kem_output := .kemOutput pk,
    ciphertext := .sealed pk ("MLS 1.0 " ++ label) context plaintext }

/-- Modelled from the spec: decrypt_with_label opens the ciphertext
under the secret key and the same labeled context, failing with
HpkeDecryptionError otherwise. -/
def decrypt_with_label (sk : Nat) (label : String) (context : List Nat) (ct : HpkeCiphertext) :
    Except CryptoError (List Nat) :=
  match ct.kem_output, ct.ciphertext with
  | .kemOutput pk, .sealed pk2 info_label info_context pt =>
    if pk = hpke_public_key sk ∧ pk2 = hpke_public_key sk
        ∧ info_label = "MLS 1.0 " ++ label ∧ info_context = context
    then .ok pt
    else .error .HpkeDecryptionError
  | _, _ => .error .HpkeDecryptionError

/-- C2: decrypt_with_label inverts encrypt_with_label on the matching
key pair, label and context, and corrupting either the kem_output or
the ciphertext field of a valid ciphertext makes decryption fail with
HpkeDecryptionError. -/
theorem C2_hpke_roundtrip_and_tamper (sk : Nat) (label : String) (context : List Nat)
    (pt : List Nat) (pos : Nat) :
    decrypt_with_label sk label context
      (encrypt_with_label (hpke_public_key sk) label context pt) = .ok pt
    ∧ decrypt_with_label sk label context
      { kem_output :=
          flip_bit pos (encrypt_with_label (hpke_public_key sk) label context pt).kem_output,
        ciphertext := (encrypt_with_label (hpke_public_key sk) label context pt).ciphertext }
      = .error .HpkeDecryptionError
    ∧ decrypt_with_label sk label context
      { kem_output := (encrypt_with_label (hpke_public_key sk) label context pt).kem_output,
        ciphertext :=
          flip_bit pos (encrypt_with_label (hpke_public_key sk) label context pt).ciphertext }
      = .error .HpkeDecryptionError := by
  refine ⟨?_, rfl, rfl⟩
  simp [decrypt_with_label, encrypt_with_label]

/-! ## Claim C10: KeyPackage equality ignores the signature -/

/-- Unsigned payload of a key package (fields abstracted). -/
structure KeyPackageTbs where
  protocol_version : Nat
  ciphersuite : Nat
  init_key : Nat
  leaf_node : Nat
  extensions : Nat
deriving DecidableEq, Repr

/-- A key package: payload and signature. -/
structure KeyPackage where
  payload : KeyPackageTbs
  signature : Nat
deriving Repr

/-- PartialEq for KeyPackage of the source: the signature is ignored in
the comparison, since the same key package may carry different valid
signatures. -/
def KeyPackage.eq (a b : KeyPackage) : Bool := a.payload == b.payload

/-- C10: two key packages with identical payloads but different
signatures compare equal. -/
theorem C10_keypackage_eq_ignores_signature (p : KeyPackageTbs) (s1 s2 : Nat) (h : s1 ≠ s2) :
    KeyPackage.eq { payload := p, signature := s1 } { payload := p, signature := s2 } = true := by
  simp [KeyPackage.eq]

theorem C10_keypackage_eq_witness :
    (0 : Nat) ≠ 1
    ∧ KeyPackage.eq { payload := ⟨1, 2, 3, 4, 5⟩, signature := 0 }
        { payload := ⟨1, 2, 3, 4, 5⟩, signature := 1 } = true :=
  ⟨by decide, C10_keypackage_eq_ignores_signature ⟨1, 2, 3, 4, 5⟩ 0 1 (by decide)⟩

/-! ## Claim C8: the leaf node TBS -/

/-- TLS codec error (payloads elided). -/
inductive TlsCodecError where
  | InvalidInput
deriving DecidableEq, Repr

/-- Leaf node lifetime. -/
structure Lifetime where
  not_before : Nat
  not_after : Nat
deriving DecidableEq, Repr

/-- Source tag of a leaf node. -/
inductive LeafNodeSource where
  | KeyPackage (lifetime : Lifetime)
  | Update
  | Commit (parent_hash : List Nat)
deriving DecidableEq, Repr

/-- Payload of a leaf node (collaborator fields abstracted to their
serialized identities). -/
structure LeafNodePayload where
  encryption_key : Nat
  signature_key : Nat
  credential : Nat
  capabilities : Nat
  leaf_node_source : LeafNodeSource
  extensions : Nat
deriving DecidableEq, Repr

/-- Group identifier. -/
structure GroupId where
  value : List Nat
deriving DecidableEq, Repr

/-- Group id and leaf index of a leaf within a group. -/
structure TreePosition where
  group_id : GroupId
  leaf_index : Nat
deriving DecidableEq, Repr

/-- The source-dependent trailer of the LeafNodeTBS. -/
inductive TreeInfoTbs where
  | KeyPackage
  | Update (tp : TreePosition)
  | Commit (tp : TreePosition)
deriving DecidableEq, Repr

/-- To-be-signed leaf node: payload plus tree info. -/
structure LeafNodeTbs where
  payload : LeafNodePayload
  tree_info_tbs : TreeInfoTbs
deriving DecidableEq, Repr

/-- Modelled from the spec: TLS serialization of the leaf node source
(discriminant plus variant body). The codec submodule is not part of
the sources at hand. -/
def LeafNodeSource.tls_serialize : LeafNodeSource → List Nat
  | .KeyPackage lt => 1 :: [lt.not_before, lt.not_after]
  | .Update => [2]
  | .Commit ph => 3 :: ph

/-- Modelled from the spec: TLS serialization of the leaf node payload
as the concatenation of its serialized fields. -/
def LeafNodePayload.tls_serialize (p : LeafNodePayload) : List Nat :=
  [p.encryption_key, p.signature_key, p.credential, p.capabilities]
    ++ p.leaf_node_source.tls_serialize ++ [p.extensions]

/-- Modelled from the spec: serialization of (group_id, leaf_index). -/
def TreePosition.tls_serialize (tp : TreePosition) : List Nat :=
  tp.group_id.value ++ [tp.leaf_index]

/-- Modelled from the spec: the TreeInfo suffix of the LeafNodeTBS is
empty for a key-package leaf and (group_id, leaf_index) for update and
commit leaves; the select carries no discriminant of its own, so the
Update and Commit variants serialize identically. -/
def TreeInfoTbs.tls_serialize : TreeInfoTbs → List Nat
  | .KeyPackage => []
  | .Update tp => tp.tls_serialize
  | .Commit tp => tp.tls_serialize

/-- Serialization of the LeafNodeTBS: payload followed by the
source-dependent suffix. -/
def LeafNodeTbs.tls_serialize (t : LeafNodeTbs) : List Nat :=
  t.payload.tls_serialize ++ t.tree_info_tbs.tls_serialize

/-- Signature label of leaf nodes. -/
def LEAF_NODE_SIGNATURE_LABEL : String := "LeafNodeTBS"

/-- Decoded leaf node awaiting verification. -/
structure LeafNodeIn where
  payload : LeafNodePayload
  signature : Nat
deriving DecidableEq, Repr

/-- Verifiable form of a key-package-sourced leaf node. -/
structure VerifiableKeyPackageLeafNode where
  payload : LeafNodePayload
  signature : Nat
deriving DecidableEq, Repr

/-- Verifiable::unsigned_payload of VerifiableKeyPackageLeafNode: the
serialized payload alone. -/
def VerifiableKeyPackageLeafNode.unsigned_payload (v : VerifiableKeyPackageLeafNode) :
    Except TlsCodecError (List Nat) :=
  .ok v.payload.tls_serialize

/-- Verifiable::label of VerifiableKeyPackageLeafNode. -/
def VerifiableKeyPackageLeafNode.label (_ : VerifiableKeyPackageLeafNode) : String :=
  LEAF_NODE_SIGNATURE_LABEL

/-- Verifiable form of an update-sourced leaf node; the tree position
is supplied separately after decoding. -/
structure VerifiableUpdateLeafNode where
  payload : LeafNodePayload
  signature : Nat
  tree_position : Option TreePosition
deriving DecidableEq, Repr

/-- Verifiable::unsigned_payload of VerifiableUpdateLeafNode: the
source builds the TreeInfoTbs with the Commit variant here as well
(the two variants serialize identically); a missing tree position is an
InvalidInput error. -/
def VerifiableUpdateLeafNode.unsigned_payload (v : VerifiableUpdateLeafNode) :
    Except TlsCodecError (List Nat) :=
  match v.tree_position with
  | some tree_position =>
    .ok (LeafNodeTbs.tls_serialize { payload := v.payload, tree_info_tbs := .Commit tree_position })
  | none => .error .InvalidInput

/-- Verifiable::label of VerifiableUpdateLeafNode. -/
def VerifiableUpdateLeafNode.label (_ : VerifiableUpdateLeafNode) : String :=
  LEAF_NODE_SIGNATURE_LABEL

/-- Verifiable form of a commit-sourced leaf node. -/
structure VerifiableCommitLeafNode where
  payload : LeafNodePayload
  signature : Nat
  tree_position : Option TreePosition
deriving DecidableEq, Repr

/-- Verifiable::unsigned_payload of VerifiableCommitLeafNode. -/
def VerifiableCommitLeafNode.unsigned_payload (v : VerifiableCommitLeafNode) :
    Except TlsCodecError (List Nat) :=
  match v.tree_position with
  | some tree_position =>
    .ok (LeafNodeTbs.tls_serialize { payload := v.payload, tree_info_tbs := .Commit tree_position })
  | none => .error .InvalidInput

/-- Verifiable::label of VerifiableCommitLeafNode. -/
def VerifiableCommitLeafNode.label (_ : VerifiableCommitLeafNode) : String :=
  LEAF_NODE_SIGNATURE_LABEL

/-- Signable::label of LeafNodeTbs, used when signing. -/
def LeafNodeTbs.label (_ : LeafNodeTbs) : String := LEAF_NODE_SIGNATURE_LABEL

/-- Signable::unsigned_payload of LeafNodeTbs. -/
def LeafNodeTbs.unsigned_payload (t : LeafNodeTbs) : Except TlsCodecError (List Nat) :=
  .ok t.tls_serialize

/-- The verifiable leaf node dispatch. -/
inductive VerifiableLeafNode where
  | KeyPackage (v : VerifiableKeyPackageLeafNode)
  | Update (v : VerifiableUpdateLeafNode)
  | Commit (v : VerifiableCommitLeafNode)
deriving DecidableEq, Repr

/-- LeafNodeIn::into_verifiable_leaf_node of the source: dispatch on
the leaf node source; update- and commit-sourced leaves start with no
tree position. -/
def LeafNodeIn.into_verifiable_leaf_node (ln : LeafNodeIn) : VerifiableLeafNode :=
  match ln.payload.leaf_node_source with
  | .KeyPackage _ => .KeyPackage { payload := ln.payload, signature := ln.signature }
  | .Update => .Update { payload := ln.payload, signature := ln.signature, tree_position := none }
  | .Commit _ => .Commit { payload := ln.payload, signature := ln.signature, tree_position := none }

/-- C8: under the label "LeafNodeTBS", the to-be-signed content is the
serialized payload alone for a key-package-sourced leaf and the
serialized payload followed by the (group_id, leaf_index) suffix for an
update- or commit-sourced leaf; a decoded update- or commit-sourced
leaf starts without a tree position, and computing its TBS in that
state fails with an InvalidInput error. -/
theorem C8_leaf_node_tbs (p : LeafNodePayload) (sg : Nat) (tp : TreePosition) :
    (VerifiableKeyPackageLeafNode.unsigned_payload { payload := p, signature := sg }
      = .ok p.tls_serialize)
    ∧ (∀ lt, p.leaf_node_source = .KeyPackage lt →
      LeafNodeIn.into_verifiable_leaf_node { payload := p, signature := sg }
        = .KeyPackage { payload := p, signature := sg })
    ∧ (p.leaf_node_source = .Update →
      LeafNodeIn.into_verifiable_leaf_node { payload := p, signature := sg }
        = .Update { payload := p, signature := sg, tree_position := none })
    ∧ (∀ ph, p.leaf_node_source = .Commit ph →
      LeafNodeIn.into_verifiable_leaf_node { payload := p, signature := sg }
        = .Commit { payload := p, signature := sg, tree_position := none })
    ∧ (VerifiableUpdateLeafNode.unsigned_payload
        { payload := p, signature := sg, tree_position := none } = .error .InvalidInput)
    ∧ (VerifiableUpdateLeafNode.unsigned_payload
        { payload := p, signature := sg, tree_position := some tp }
      = .ok (p.tls_serialize ++ tp.tls_serialize))
    ∧ (VerifiableCommitLeafNode.unsigned_payload
        { payload := p, signature := sg, tree_position := none } = .error .InvalidInput)
    ∧ (VerifiableCommitLeafNode.unsigned_payload
        { payload := p, signature := sg, tree_position := some tp }
      = .ok (p.tls_serialize ++ tp.tls_serialize))
    ∧ VerifiableKeyPackageLeafNode.label { payload := p, signature := sg } = "LeafNodeTBS"
    ∧ VerifiableUpdateLeafNode.label { payload := p, signature := sg, tree_position := none }
      = "LeafNodeTBS"
    ∧ VerifiableCommitLeafNode.label { payload := p, signature := sg, tree_position := none }
      = "LeafNodeTBS"
    ∧ LeafNodeTbs.label { payload := p, tree_info_tbs := .KeyPackage } = "LeafNodeTBS" := by
  refine ⟨rfl, ?_, ?_, ?_, rfl, rfl, rfl, rfl, rfl, rfl, rfl, rfl⟩
  · intro lt h
    unfold LeafNodeIn.into_verifiable_leaf_node
    simp only [h]
  · intro h
    unfold LeafNodeIn.into_verifiable_leaf_node
    simp only [h]
  · intro ph h
    unfold LeafNodeIn.into_verifiable_leaf_node
    simp only [h]

/-- Concrete update-sourced payload for the C8 witness. -/
def c8payload : LeafNodePayload :=
  { encryption_key := 10, signature_key := 11, credential := 12, capabilities := 13,
    leaf_node_source := .Update, extensions := 14 }

/-- Concrete tree position for the C8 witness. -/
def c8tp : TreePosition := { group_id := { value := [1, 2] }, leaf_index := 3 }

theorem C8_leaf_node_tbs_witness :
    (VerifiableKeyPackageLeafNode.unsigned_payload
        { payload := c8payload, signature := 9 } = .ok c8payload.tls_serialize)
    ∧ (∀ lt, c8payload.leaf_node_source = .KeyPackage lt →
      LeafNodeIn.into_verifiable_leaf_node { payload := c8payload, signature := 9 }
        = .KeyPackage { payload := c8payload, signature := 9 })
    ∧ (c8payload.leaf_node_source = .Update →
      LeafNodeIn.into_verifiable_leaf_node { payload := c8payload, signature := 9 }
        = .Update { payload := c8payload, signature := 9, tree_position := none })
    ∧ (∀ ph, c8payload.leaf_node_source = .Commit ph →
      LeafNodeIn.into_verifiable_leaf_node { payload := c8payload, signature := 9 }
        = .Commit { payload := c8payload, signature := 9, tree_position := none })
    ∧ (VerifiableUpdateLeafNode.unsigned_payload
        { payload := c8payload, signature := 9, tree_position := none } = .error .InvalidInput)
    ∧ (VerifiableUpdateLeafNode.unsigned_payload
        { payload := c8payload, signature := 9, tree_position := some c8tp }
      = .ok (c8payload.tls_serialize ++ c8tp.tls_serialize))
    ∧ (VerifiableCommitLeafNode.unsigned_payload
        { payload := c8payload, signature := 9, tree_position := none } = .error .InvalidInput)
    ∧ (VerifiableCommitLeafNode.unsigned_payload
        { payload := c8payload, signature := 9, tree_position := some c8tp }
      = .ok (c8payload.tls_serialize ++ c8tp.tls_serialize))
    ∧ VerifiableKeyPackageLeafNode.label { payload := c8payload, signature := 9 } = "LeafNodeTBS"
    ∧ VerifiableUpdateLeafNode.label
        { payload := c8payload, signature := 9, tree_position := none } = "LeafNodeTBS"
    ∧ VerifiableCommitLeafNode.label
        { payload := c8payload, signature := 9, tree_position := none } = "LeafNodeTBS"
    ∧ LeafNodeTbs.label { payload := c8payload, tree_info_tbs := .KeyPackage } = "LeafNodeTBS" :=
  C8_leaf_node_tbs c8payload 9 c8tp

/-! ## Claim C4: bounded past-epoch decryption

Modelled from the spec: the message secrets store is a bounded map from
past epochs to their decryption secrets, FIFO by epoch number with
capacity max_past_epochs; merging a commit advances the epoch and
stores the finished epoch; an application message decrypts when its
epoch is current or still stored, and otherwise the AEAD decryption
fails, surfacing as UnableToDecrypt(AeadError). -/

/-- Message decryption error (other variants elided). -/
inductive MessageDecryptionError where
  | AeadError
deriving DecidableEq, Repr

/-- Validation error (other variants elided). -/
inductive ValidationError where
  | UnableToDecrypt (e : MessageDecryptionError)
  | NotAnExternalAddProposal
deriving DecidableEq, Repr

/-- Error of process_message (other variants elided). -/
inductive ProcessMessageError where
  | ValidationError (e : ValidationError)
  | InvalidSignature
deriving DecidableEq, Repr

/-- Symbolic per-epoch message secrets. -/
inductive EpochSecrets where
  | forEpoch (epoch : Nat)
deriving DecidableEq, Repr

/-- The bounded store of past epoch secrets, oldest first. -/
structure MessageSecretsStore where
  max_epochs : Nat
  past_epoch_secrets : List (Nat × EpochSecrets)
deriving DecidableEq, Repr

/-- Add a finished epoch, evicting the oldest entry beyond the
capacity; a capacity of zero stores nothing. -/
def MessageSecretsStore.add (s : MessageSecretsStore) (epoch : Nat) (secrets : EpochSecrets) :
    MessageSecretsStore :=
  if s.max_epochs = 0 then s
  else
    let q := s.past_epoch_secrets ++ [(epoch, secrets)]
    { s with
      past_epoch_secrets := if s.max_epochs < q.length then q.drop (q.length - s.max_epochs) else q }

/-- Look up the stored secrets of an epoch. -/
def MessageSecretsStore.secrets_for_epoch (s : MessageSecretsStore) (epoch : Nat) :
    Option EpochSecrets :=
  (s.past_epoch_secrets.find? (fun pr => pr.1 == epoch)).map (fun pr => pr.2)

/-- Group model for the past-epoch window: current epoch and the
bounded store. -/
structure MlsGroupModel where
  epoch : Nat
  message_secrets_store : MessageSecretsStore
deriving DecidableEq, Repr

/-- Fresh group at epoch 0 with the given max_past_epochs capacity. -/
def MlsGroupModel.new (max_past_epochs : Nat) : MlsGroupModel :=
  { epoch := 0,
    message_secrets_store := { max_epochs := max_past_epochs, past_epoch_secrets := [] } }

/-- Merging a commit: advance the epoch, storing the finished one. -/
def MlsGroupModel.advance_epoch (g : MlsGroupModel) : MlsGroupModel :=
  { epoch := g.epoch + 1,
    message_secrets_store := g.message_secrets_store.add g.epoch (.forEpoch g.epoch) }

/-- The group after advancing through the given number of epochs. -/
def MlsGroupModel.after_epochs (max_past_epochs : Nat) : Nat → MlsGroupModel
  | 0 => MlsGroupModel.new max_past_epochs
  | e + 1 => (MlsGroupModel.after_epochs max_past_epochs e).advance_epoch

/-- Process an application message sent in the given epoch: succeed
with the secrets of that epoch when current or stored, fail with
UnableToDecrypt(AeadError) otherwise. -/
def MlsGroupModel.process_application_message (g : MlsGroupModel) (msg_epoch : Nat) :
    Except ProcessMessageError EpochSecrets :=
  if msg_epoch = g.epoch then .ok (.forEpoch g.epoch)
  else
    match g.message_secrets_store.secrets_for_epoch msg_epoch with
    | some secrets => .ok secrets
    | none => .error (.ValidationError (.UnableToDecrypt .AeadError))

/-- Consecutive epochs starting at s. -/
def epochRange : Nat → Nat → List Nat
  | _, 0 => []
  | s, n + 1 => s :: epochRange (s + 1) n

theorem length_epochRange (s n : Nat) : (epochRange s n).length = n := by
  induction n generalizing s with
  | zero => rfl
  | succ n ih => simp [epochRange, ih]

theorem epochRange_concat (s n : Nat) : epochRange s (n + 1) = epochRange s n ++ [s + n] := by
  induction n generalizing s with
  | zero => simp [epochRange]
  | succ n ih =>
    show s :: epochRange (s + 1) (n + 1) = (s :: epochRange (s + 1) n) ++ [s + n + 1]
    rw [ih (s + 1), show s + 1 + n = s + n + 1 from by omega]
    rfl

theorem find_epochRange (x s n : Nat) :
    ((epochRange s n).map (fun j => ((j : Nat), EpochSecrets.forEpoch j))).find?
        (fun pr => pr.1 == x)
      = if s ≤ x ∧ x < s + n then some (x, .forEpoch x) else none := by
  induction n generalizing s with
  | zero =>
    rw [if_neg (by omega)]
    rfl
  | succ n ih =>
    show ((((s : Nat), EpochSecrets.forEpoch s)
        :: (epochRange (s + 1) n).map (fun j => ((j : Nat), EpochSecrets.forEpoch j))).find?
        (fun pr => pr.1 == x)) = _
    by_cases hsx : s = x
    · subst hsx
      rw [List.find?_cons_of_pos _ (by simp)]
      rw [if_pos (by omega)]
    · rw [List.find?_cons_of_neg _ (by simp [hsx])]
      rw [ih (s + 1)]
      by_cases hc : s + 1 ≤ x ∧ x < s + 1 + n
      · rw [if_pos hc, if_pos (by omega)]
      · rw [if_neg hc, if_neg (by omega)]

theorem add_epochRange (k e : Nat) :
    MessageSecretsStore.add
      { max_epochs := k,
        past_epoch_secrets :=
          (epochRange (e - min k e) (min k e)).map (fun j => (j, EpochSecrets.forEpoch j)) }
      e (.forEpoch e)
    = { max_epochs := k,
        past_epoch_secrets :=
          (epochRange (e + 1 - min k (e + 1)) (min k (e + 1))).map
            (fun j => (j, EpochSecrets.forEpoch j)) } := by
  simp only [MessageSecretsStore.add]
  by_cases hk0 : k = 0
  · subst hk0
    rw [if_pos rfl]
    simp [epochRange]
  · rw [if_neg hk0]
    have hm : min k e ≤ e := Nat.min_le_right k e
    have hconcat :
        (epochRange (e - min k e) (min k e)).map (fun j => (j, EpochSecrets.forEpoch j))
            ++ [(e, EpochSecrets.forEpoch e)]
          = (epochRange (e - min k e) (min k e + 1)).map
              (fun j => (j, EpochSecrets.forEpoch j)) := by
      rw [epochRange_concat, List.map_append, show e - min k e + min k e = e from by omega]
      rfl
    rw [hconcat]
    have hlen :
        ((epochRange (e - min k e) (min k e + 1)).map
          (fun j => (j, EpochSecrets.forEpoch j))).length = min k e + 1 := by
      simp [length_epochRange]
    by_cases hke : e < k
    · rw [if_neg (by rw [hlen]; omega)]
      rw [show min k e = e from by omega, show min k (e + 1) = e + 1 from by omega]
      simp
    · rw [if_pos (by rw [hlen]; omega), hlen]
      rw [show min k e = k from by omega, show k + 1 - k = 1 from by omega]
      rw [show epochRange (e - k) (k + 1) = (e - k) :: epochRange (e - k + 1) k from rfl]
      rw [show min k (e + 1) = k from by omega, show e + 1 - k = e - k + 1 from by omega]
      simp

theorem after_epochs_spec (k : Nat) : ∀ e,
    MlsGroupModel.after_epochs k e
      = { epoch := e,
          message_secrets_store :=
            { max_epochs := k,
              past_epoch_secrets :=
                (epochRange (e - min k e) (min k e)).map
                  (fun j => (j, EpochSecrets.forEpoch j)) } } := by
  intro e
  induction e with
  | zero => simp [MlsGroupModel.after_epochs, MlsGroupModel.new, epochRange]
  | succ e ih =>
    show (MlsGroupModel.after_epochs k e).advance_epoch = _
    rw [ih]
    simp only [MlsGroupModel.advance_epoch]
    rw [add_epochRange k e]

/-- C4: for a group configured with max_past_epochs = k at current
epoch e, an application message from epoch e - i decrypts successfully
when 0 ≤ i ≤ k, and fails with UnableToDecrypt(AeadError) when
i > k. -/
theorem C4_past_epoch_window (k e i : Nat) (hie : i ≤ e) :
    (i ≤ k →
      (MlsGroupModel.after_epochs k e).process_application_message (e - i)
        = .ok (.forEpoch (e - i)))
    ∧ (k < i →
      (MlsGroupModel.after_epochs k e).process_application_message (e - i)
        = .error (.ValidationError (.UnableToDecrypt .AeadError))) := by
  rw [after_epochs_spec k e]
  unfold MlsGroupModel.process_application_message
  simp only [MessageSecretsStore.secrets_for_epoch]
  constructor
  · intro hik
    by_cases hi0 : i = 0
    · subst hi0
      rw [if_pos (by omega)]
      simp
    · rw [if_neg (by omega)]
      rw [find_epochRange]
      rw [if_pos (by omega)]
      rfl
  · intro hki
    rw [if_neg (by omega)]
    rw [find_epochRange]
    rw [if_neg (by omega)]
    rfl

theorem C4_past_epoch_window_witness :
    ((1 : Nat) ≤ 2 →
      (MlsGroupModel.after_epochs 2 5).process_application_message (5 - 1)
        = .ok (.forEpoch (5 - 1)))
    ∧ ((2 : Nat) < 1 →
      (MlsGroupModel.after_epochs 2 5).process_application_message (5 - 1)
        = .error (.ValidationError (.UnableToDecrypt .AeadError)))
    ∧ ((4 : Nat) ≤ 2 →
      (MlsGroupModel.after_epochs 2 5).process_application_message (5 - 4)
        = .ok (.forEpoch (5 - 4)))
    ∧ ((2 : Nat) < 4 →
      (MlsGroupModel.after_epochs 2 5).process_application_message (5 - 4)
        = .error (.ValidationError (.UnableToDecrypt .AeadError))) :=
  ⟨(C4_past_epoch_window 2 5 1 (by decide)).1, (C4_past_epoch_window 2 5 1 (by decide)).2,
    (C4_past_epoch_window 2 5 4 (by decide)).1, (C4_past_epoch_window 2 5 4 (by decide)).2⟩

/-! ## Claim C5: external join proposal authentication

Modelled from the spec: the JoinProposal pipeline of the group state
machine is not part of the sources at hand. Signatures are symbolic:
a message records which key produced its outer signature, and
verification compares that key against the signature key of the
KeyPackage the proposal references. -/

/-- Key package of a prospective member (leaf signature key and
identity). -/
structure JoinKeyPackage where
  signature_key : Nat
  identity : Nat
deriving DecidableEq, Repr

/-- An external JoinProposal message: the referenced key package, and
the key that produced the outer message signature. -/
structure JoinProposalMessage where
  key_package : JoinKeyPackage
  outer_signature_key : Nat
deriving DecidableEq, Repr

/-- process_message on an external JoinProposal: the outer signature
must verify under the signature key of the key package the proposal
references; a mismatch is rejected with InvalidSignature. -/
def process_external_join_proposal (m : JoinProposalMessage) :
    Except ProcessMessageError JoinKeyPackage :=
  if m.outer_signature_key = m.key_package.signature_key then .ok m.key_package
  else .error .InvalidSignature

/-- Group membership state. -/
structure GroupState where
  members : List JoinKeyPackage
  epoch : Nat
deriving DecidableEq, Repr

/-- The Welcome emitted by a commit, carrying what the new member needs
to derive the committed group state. -/
structure Welcome where
  group_state : GroupState
deriving DecidableEq, Repr

/-- A member commits the accepted join proposal: the new leaf is added,
the epoch advances, and a Welcome is emitted for the new member. -/
def GroupState.commit_add (g : GroupState) (kp : JoinKeyPackage) : GroupState × Welcome :=
  let g1 : GroupState := { members := g.members ++ [kp], epoch := g.epoch + 1 }
  (g1, { group_state := g1 })

/-- The new party joins from the Welcome. -/
def Welcome.join (w : Welcome) : GroupState := w.group_state

/-- C5: an external JoinProposal whose outer signature was produced by
a key different from the signature key in its KeyPackage is rejected
with InvalidSignature; one signed by the KeyPackage key itself is
accepted, and after a member commits it the new party joins via the
emitted Welcome into the committed group state, which contains it. -/
theorem C5_external_join_signature (kp : JoinKeyPackage) (k2 : Nat) (g : GroupState)
    (hne : k2 ≠ kp.signature_key) :
    process_external_join_proposal { key_package := kp, outer_signature_key := k2 }
      = .error .InvalidSignature
    ∧ process_external_join_proposal { key_package := kp, outer_signature_key := kp.signature_key }
      = .ok kp
    ∧ (GroupState.commit_add g kp).2.join = (GroupState.commit_add g kp).1
    ∧ kp ∈ (GroupState.commit_add g kp).1.members := by
  refine ⟨?_, ?_, rfl, ?_⟩
  · simp [process_external_join_proposal, hne]
  · simp [process_external_join_proposal]
  · simp [GroupState.commit_add]

theorem C5_external_join_signature_witness :
    process_external_join_proposal
        { key_package := { signature_key := 1, identity := 20 }, outer_signature_key := 2 }
      = .error .InvalidSignature
    ∧ process_external_join_proposal
        { key_package := { signature_key := 1, identity := 20 }, outer_signature_key := 1 }
      = .ok { signature_key := 1, identity := 20 }
    ∧ (GroupState.commit_add { members := [], epoch := 0 }
        { signature_key := 1, identity := 20 }).2.join
      = (GroupState.commit_add { members := [], epoch := 0 }
        { signature_key := 1, identity := 20 }).1
    ∧ ({ signature_key := 1, identity := 20 } : JoinKeyPackage)
      ∈ (GroupState.commit_add { members := [], epoch := 0 }
        { signature_key := 1, identity := 20 }).1.members :=
  C5_external_join_signature { signature_key := 1, identity := 20 } 2
    { members := [], epoch := 0 } (by decide)

/-! ## Claim C6: the public group observer

Modelled from the spec: the PublicGroup observer and the public part of
commit processing are not part of the sources at hand. A commit is
applied to the public state by a single deterministic transition
(canonical proposal order, epoch increment, new tree hash, transcript
step); a full member runs the same transition and additionally derives
the private epoch secrets, which the observer omits. -/

/-- Proposals as they act on the public tree. -/
inductive ProposalV where
  | add (key_package : Nat)
  | remove (index : Nat)
  | update (index : Nat) (key_package : Nat)
deriving DecidableEq, Repr

/-- A public commit carrying its proposals. -/
structure CommitV where
  proposals : List ProposalV
deriving DecidableEq, Repr

/-- Public ratchet tree, as leaf slots of member key material. -/
abbrev RatchetTreeV := List (Option Nat)

/-- Symbolic tree hash. -/
inductive TreeHashV where
  | ofTree (tree : RatchetTreeV)
deriving DecidableEq, Repr

/-- Symbolic confirmed transcript hash. -/
inductive TranscriptHashV where
  | initial
  | step (prev : TranscriptHashV) (c : CommitV)
deriving DecidableEq, Repr

/-- Group context: group id, epoch, tree hash and confirmed transcript
hash. -/
structure GroupContext where
  group_id : Nat
  epoch : Nat
  tree_hash : TreeHashV
  confirmed_transcript_hash : TranscriptHashV
deriving DecidableEq, Repr

/-- Fill the leftmost blank leaf or grow the tree by one leaf. -/
def add_leaf : RatchetTreeV → Nat → RatchetTreeV
  | [], kp => [some kp]
  | none :: rest, _kp => some _kp :: rest
  | some x :: rest, kp => some x :: add_leaf rest kp

/-- Apply one proposal to the public tree. -/
def apply_proposal (t : RatchetTreeV) : ProposalV → RatchetTreeV
  | .add kp => add_leaf t kp
  | .remove i => t.set i none
  | .update i kp => t.set i (some kp)

/-- Proposal kind predicates for the canonical order. -/
def ProposalV.is_update : ProposalV → Bool
  | .update _ _ => true
  | _ => false

def ProposalV.is_remove : ProposalV → Bool
  | .remove _ => true
  | _ => false

def ProposalV.is_add : ProposalV → Bool
  | .add _ => true
  | _ => false

/-- Apply the proposals of a commit in canonical order: updates, then
removes, then adds. -/
def apply_proposals (t : RatchetTreeV) (ps : List ProposalV) : RatchetTreeV :=
  let t1 := (ps.filter ProposalV.is_update).foldl apply_proposal t
  let t2 := (ps.filter ProposalV.is_remove).foldl apply_proposal t1
  (ps.filter ProposalV.is_add).foldl apply_proposal t2

/-- The public transition of a commit: apply the proposals, advance the
epoch, recompute the tree hash and step the confirmed transcript
hash. -/
def apply_commit_public (gc : GroupContext) (t : RatchetTreeV) (c : CommitV) :
    GroupContext × RatchetTreeV :=
  let t1 := apply_proposals t c.proposals
  ({ gc with
      epoch := gc.epoch + 1,
      tree_hash := .ofTree t1,
      confirmed_transcript_hash := .step gc.confirmed_transcript_hash c }, t1)

/-- Full member state: group context, tree, and the private epoch
secret the observer does not hold. -/
structure MemberGroup where
  group_context : GroupContext
  tree : RatchetTreeV
  encryption_secret : Secret
deriving DecidableEq, Repr

/-- A full member processes a commit: the public transition plus the
derivation of the new private epoch secret. -/
def MemberGroup.process_commit (m : MemberGroup) (c : CommitV) : MemberGroup :=
  let gct := apply_commit_public m.group_context m.tree c
  { group_context := gct.1, tree := gct.2,
    encryption_secret := m.encryption_secret.kdf_expand_label "epoch" (.beBytes gct.1.epoch) 32 }

/-- A full member processes a stream of commits in order. -/
def MemberGroup.process_commits (m : MemberGroup) (commits : List CommitV) : MemberGroup :=
  commits.foldl MemberGroup.process_commit m

/-- The stateless observer: group context and tree only, no private
key material. -/
structure PublicGroup where
  group_context : GroupContext
  tree : RatchetTreeV
deriving DecidableEq, Repr

/-- The observer processes a public commit and merges it: exactly the
public transition. -/
def PublicGroup.process_and_merge_commit (p : PublicGroup) (c : CommitV) : PublicGroup :=
  let gct := apply_commit_public p.group_context p.tree c
  { group_context := gct.1, tree := gct.2 }

/-- The observer processes a stream of commits in order. -/
def PublicGroup.process_commits (p : PublicGroup) (commits : List CommitV) : PublicGroup :=
  commits.foldl PublicGroup.process_and_merge_commit p

/-- Exported ratchet tree of a full member. -/
def MemberGroup.export_ratchet_tree (m : MemberGroup) : RatchetTreeV := m.tree

/-- Exported ratchet tree of the observer. -/
def PublicGroup.export_ratchet_tree (p : PublicGroup) : RatchetTreeV := p.tree

/-- C6: an observer that starts aligned with a full member and
processes the same correctly ordered stream of public commits has the
same group context as the member at the same epoch, and exports the
same ratchet tree; this holds for every member state, so all full
members and the observer agree. -/
theorem C6_public_group_refinement (p : PublicGroup) (m : MemberGroup) (commits : List CommitV)
    (hgc : p.group_context = m.group_context) (ht : p.tree = m.tree) :
    (p.process_commits commits).group_context = (m.process_commits commits).group_context
    ∧ (p.process_commits commits).export_ratchet_tree
      = (m.process_commits commits).export_ratchet_tree := by
  induction commits generalizing p m with
  | nil => exact ⟨hgc, ht⟩
  | cons c rest ih =>
    have h1 : (p.process_and_merge_commit c).group_context = (m.process_commit c).group_context := by
      simp [PublicGroup.process_and_merge_commit, MemberGroup.process_commit, hgc, ht]
    have h2 : (p.process_and_merge_commit c).tree = (m.process_commit c).tree := by
      simp [PublicGroup.process_and_merge_commit, MemberGroup.process_commit, hgc, ht]
    exact ih (p.process_and_merge_commit c) (m.process_commit c) h1 h2

/-- Concrete commit stream for the C6 witness: add two members, update
one, remove one. -/
def c6commits : List CommitV :=
  [{ proposals := [.add 1] }, { proposals := [.add 2] },
   { proposals := [.update 0 3, .remove 1] }]

/-- Concrete aligned starting states for the C6 witness. -/
def c6gc : GroupContext :=
  { group_id := 9, epoch := 0, tree_hash := .ofTree [some 0],
    confirmed_transcript_hash := .initial }

theorem C6_public_group_refinement_witness :
    ((PublicGroup.process_commits { group_context := c6gc, tree := [some 0] } c6commits).group_context
      = (MemberGroup.process_commits
          { group_context := c6gc, tree := [some 0], encryption_secret := .encryptionSecret 4 }
          c6commits).group_context)
    ∧ ((PublicGroup.process_commits { group_context := c6gc, tree := [some 0] } c6commits).export_ratchet_tree
      = (MemberGroup.process_commits
          { group_context := c6gc, tree := [some 0], encryption_secret := .encryptionSecret 4 }
          c6commits).export_ratchet_tree) :=
  C6_public_group_refinement { group_context := c6gc, tree := [some 0] }
    { group_context := c6gc, tree := [some 0], encryption_secret := .encryptionSecret 4 }
    c6commits rfl rfl

/-! ## Establishment of the invariants at construction -/

theorem get?_replicate {α : Type} (a : α) (n m : Nat) :
    (List.replicate n a).get? m = if m < n then some a else none := by
  induction n generalizing m with
  | zero => simp
  | succ n ih =>
    cases m with
    | zero => simp [List.replicate]
    | succ m =>
      show (List.replicate n a).get? m = _
      rw [ih]
      by_cases h : m < n
      · rw [if_pos h, if_pos (by omega)]
      · rw [if_neg h, if_neg (by omega)]

theorem new_ratchets (es : Secret) (size own : Nat) :
    (SecretTree.new es size own).handshake_sender_ratchets = List.replicate size none
    ∧ (SecretTree.new es size own).application_sender_ratchets = List.replicate size none := by
  cases hr : root size <;> simp [SecretTree.new, hr]

/-- The ratchet-leaf invariant used by the forward-secrecy claim is
established at construction: a fresh secret tree has no initialized
ratchet. -/
theorem RatchetLeafInv_new (es : Secret) (size own : Nat) :
    (SecretTree.new es size own).RatchetLeafInv := by
  intro i _ h1 _
  exfalso
  have hrl := (new_ratchets es size own).1
  unfold SecretTree.initializedAt SecretTree.sender_ratchets at h1
  rw [hrl] at h1
  obtain ⟨r, hr⟩ := isSomeSome_true h1
  rw [get?_replicate] at hr
  split at hr
  · simp at hr
  · exact Option.noConfusion hr

/-- The variant invariant used by the ratchet-type claim is established
at construction: a fresh secret tree has no initialized ratchet. -/
theorem VariantInv_new (es : Secret) (size own : Nat) :
    (SecretTree.new es size own).VariantInv := by
  constructor
  · intro i _
    left
    unfold ratchetVariantAt
    rw [(new_ratchets es size own).1, get?_replicate]
    split
    · rename_i r heq
      split at heq <;> simp at heq
    · rename_i r heq
      split at heq <;> simp at heq
    · rfl
  · intro i _
    left
    unfold ratchetVariantAt
    rw [(new_ratchets es size own).2, get?_replicate]
    split
    · rename_i r heq
      split at heq <;> simp at heq
    · rename_i r heq
      split at heq <;> simp at heq
    · rfl

end Mls
